import Mathlib

/-!
# logsender: the tail-and-dispatch engine

A shallow embedding of `logsender.go`.  Go strings and byte slices are lists of
bytes, a byte is a natural number.  Operating-system objects (`os.File`, the
fsnotify watcher, the redis client) are explicit state; a function that may
loop or recurse without bound takes a fuel argument and reports when the fuel
ran out before the code returned.  Diagnostic printing (`fmt.Printf`,
`fmt.Println`) is not part of the model.
-/

namespace Logsender

/-! ## Strings -/

/-- One byte of a Go string or byte slice. -/
abbrev Byte := Nat

/-- A Go `string` (equally a `[]byte`): a sequence of bytes. -/
abbrev GoString := List Byte

/-- The bytes of an ASCII text, one byte for each character. -/
def ascii (s : String) : GoString := s.toList.map Char.toNat

/-- The constant `BUFF_SIZE`. -/
def BUFF_SIZE : Nat := 1024

/-- The constant `LINE_SEP`, the byte of '\n'. -/
def LINE_SEP : Byte := 10

/-- The byte of '/'. -/
def SLASH : Byte := 47

/-- The byte of ' '. -/
def SPACE : Byte := 32

/-- The byte of '['. -/
def LBRACKET : Byte := 91

/-- Go's slice expression `s[lo:hi]`, for `lo ≤ hi ≤ len(s)`. -/
def goSlice (s : List Byte) (lo hi : Nat) : List Byte := (s.drop lo).take (hi - lo)

/-- Go's `strings.Split(s, sep)` for a separator of one byte: the pieces of `s`
between the occurrences of `sep`; one more piece than there are occurrences. -/
def stringsSplit (sep : Byte) : GoString → List GoString
  | [] => [[]]
  | c :: cs =>
    if c = sep then [] :: stringsSplit sep cs
    else
      match stringsSplit sep cs with
      | [] => [[c]]
      | t :: ts => (c :: t) :: ts

/-- Go's `strings.TrimLeft(s, cutset)` for a cutset of one byte: `s` without
its leading run of that byte. -/
def stringsTrimLeft (s : GoString) (cut : Byte) : GoString := s.dropWhile (fun c => c = cut)

/-- A run-time panic of the Go program; it is never recovered, so the process
dies with it. -/
inductive Panic where
  | indexOutOfRange (index length : Nat)
  | nilDereference
  deriving DecidableEq, Repr

/-! ## getParentDir -/

/-- The loop of `getParentDir`, `for i := len(path) - 1; i > 0; i--`, entered
with the counter at `i`: the first `i` bytes of the path for the first visited
index holding '/', the zero value of `rv` when the counter reaches 0. -/
def getParentDirLoop (path : GoString) : Nat → GoString
  | 0 => []
  | i + 1 => if path[i + 1]? = some SLASH then path.take (i + 1) else getParentDirLoop path i

/-- The function `getParentDir(path)`. -/
def getParentDir (path : GoString) : GoString := getParentDirLoop path (path.length - 1)

/-! ## Line handlers -/

/-- The function `lineHandlerRaw`: the line itself (it is also echoed on standard output). -/
def lineHandlerRaw (line : GoString) : Except Panic GoString := .ok line

/-- The function `lineHandlerNginx`: split on single spaces, index the pieces at 3 and at 8
(either index panics when out of range) and format the two. -/
def lineHandlerNginx (line : GoString) : Except Panic GoString :=
  let param := stringsSplit SPACE line
  match param[3]? with
  | none => .error (.indexOutOfRange 3 param.length)
  | some p3 =>
    let responseTime := stringsTrimLeft p3 LBRACKET
    match param[8]? with
    | none => .error (.indexOutOfRange 8 param.length)
    | some responseCode =>
      .ok (ascii "time = " ++ responseTime ++ ascii ", code = " ++ responseCode ++ ascii "\n")

deriving instance DecidableEq for Except

/-- A line handler that can be bound to `watcherNode.lineHandler`. -/
inductive LineHandler where
  | raw
  | nginx
  deriving DecidableEq, Repr

/-- The call `h(line)` of a bound line handler. -/
def LineHandler.call : LineHandler → GoString → Except Panic GoString
  | .raw, line => lineHandlerRaw line
  | .nginx, line => lineHandlerNginx line

/-- A send handler that can be bound to `watcherNode.sendHandler`. -/
inductive SendHandler where
  | redis
  deriving DecidableEq, Repr

/-! ## Configuration -/

/-- The `Redis` member of `nodeConfiguration`. -/
structure RedisConfiguration where
  Addr : GoString
  Password : GoString
  Db : Int
  Channel : GoString
  deriving DecidableEq, Repr

/-- The struct `nodeConfiguration`: one monitored file (a MonitorSpec). -/
structure nodeConfiguration where
  File : GoString
  Linehandler : GoString
  Sendhandler : GoString
  Redis : RedisConfiguration
  deriving DecidableEq, Repr

/-! ## Operating-system and library objects -/

/-- The errors of the file and watcher operations the program looks at. -/
inductive IOError where
  | EOF
  | ErrClosed
  | EISDIR
  | EINVAL
  | ENOENT
  deriving DecidableEq, Repr

/-- The test `os.IsNotExist(err)`. -/
def IOError.IsNotExist : IOError → Bool
  | .ENOENT => true
  | _ => false

/-- An `os.File` opened for reading: the name it was opened with, the bytes of
the file it refers to, the read position, whether it has been closed, and
whether it refers to a directory. -/
structure OsFile where
  name : GoString
  data : List Byte
  pos : Nat
  closed : Bool
  isDir : Bool
  deriving DecidableEq, Repr

/-- The call `f.Read(buffer)` with `len(buffer) = len`: the bytes read and the
file with its position advanced, or the error.  At the end of the data the
error is `io.EOF`. -/
def OsFile.Read (f : OsFile) (len : Nat) : Except IOError (List Byte × OsFile) :=
  if f.closed then .error .ErrClosed
  else if f.isDir then .error .EISDIR
  else
    let chunk := (f.data.drop f.pos).take len
    if chunk = [] ∧ 0 < len then .error .EOF
    else .ok (chunk, { f with pos := f.pos + chunk.length })

/-- The call `f.Seek(offset, os.SEEK_CUR)`: the new position and the file, or
the error. -/
def OsFile.Seek (f : OsFile) (offset : Int) : Except IOError (Int × OsFile) :=
  if f.closed then .error .ErrClosed
  else if (f.pos : Int) + offset < 0 then .error .EINVAL
  else .ok ((f.pos : Int) + offset, { f with pos := ((f.pos : Int) + offset).toNat })

/-- The call `f.Close()`. -/
def OsFile.Close (f : OsFile) : OsFile := { f with closed := true }

/-- A `redis.Client`: the options it was made with and the messages published
through it so far, each with its channel, oldest first. -/
structure RedisClient where
  Addr : GoString
  Password : GoString
  DB : Int
  published : List (GoString × GoString)
  deriving DecidableEq, Repr

/-- The call `c.Publish(channel, msg)`; its result is not looked at. -/
def RedisClient.Publish (c : RedisClient) (channel msg : GoString) : RedisClient :=
  { c with published := c.published ++ [(channel, msg)] }

/-! ## watcherNode -/

/-- The struct `watcherNode` (the Tail State of one file).  The fields `buffer`
and `serviceType` are never used and left out.  `handled` is a ghost field: the
arguments the line handler has been called with, oldest first. -/
structure watcherNode where
  fileName : GoString
  currentSeek : Int
  fd : OsFile
  redisClient : Option RedisClient
  lineHandler : Option LineHandler
  sendHandler : Option SendHandler
  nodeConfig : nodeConfiguration
  handled : List GoString
  deriving DecidableEq, Repr

/-- The function `senderHandlerRedis(msg)`. -/
def watcherNode.senderHandlerRedis (n : watcherNode) (msg : GoString) :
    Except (Panic × watcherNode) watcherNode :=
  match n.redisClient with
  | none => .error (.nilDereference, n)
  | some c => .ok { n with redisClient := some (c.Publish n.nodeConfig.Redis.Channel msg) }

/-- The statement `w.sendHandler(w.lineHandler(line))` of `readLine`: the node
afterwards, or the panic together with the node at that moment. -/
def watcherNode.dispatch (w : watcherNode) (line : GoString) :
    Except (Panic × watcherNode) watcherNode :=
  match w.lineHandler with
  | none => .error (.nilDereference, w)
  | some h =>
    let w1 := { w with handled := w.handled ++ [line] }
    match h.call line with
    | .error p => .error (p, w1)
    | .ok msg =>
      match w1.sendHandler with
      | none => .error (.nilDereference, w1)
      | some .redis => w1.senderHandlerRedis msg

/-- The inner loop of `readLine`, `for i, v := range buffer[:n]`, entered at
index `i` with the bytes `rest` of the chunk still to visit: the value of
`begin_of_line` after the loop and the node, or the panic of a handler. -/
def watcherNode.rangeLoop (buffer : List Byte) :
    List Byte → Nat → Nat → watcherNode → Except (Panic × watcherNode) (Nat × watcherNode)
  | [], _, begin_of_line, w => .ok (begin_of_line, w)
  | v :: rest, i, begin_of_line, w =>
    if v = LINE_SEP then
      match w.dispatch (goSlice buffer begin_of_line i) with
      | .error e => .error e
      | .ok w1 => watcherNode.rangeLoop buffer rest (i + 1) (i + 1) w1
    else watcherNode.rangeLoop buffer rest (i + 1) begin_of_line w

/-- How a run of `readLine` ended: it returned the error of `Read` or `Seek`
(it never returns nil), a handler panicked, or it was still looping when the
fuel ran out. -/
inductive Outcome where
  | returned (err : IOError)
  | panicked (p : Panic)
  | running
  deriving DecidableEq, Repr

/-- The function `readLine()`, with `fuel` bounding the number of rounds of its outer `for`
loop: the node afterwards and how the run ended. -/
def watcherNode.readLine : Nat → watcherNode → watcherNode × Outcome
  | 0, w => (w, .running)
  | fuel + 1, w =>
    match w.fd.Read BUFF_SIZE with
    | .error err => (w, .returned err)
    | .ok (chunk, fd1) =>
      match watcherNode.rangeLoop chunk chunk 0 0 { w with fd := fd1 } with
      | .error (p, w1) => (w1, .panicked p)
      | .ok (begin_of_line, w1) =>
        match w1.fd.Seek ((begin_of_line : Int) - (chunk.length : Int)) with
        | .error err => ({ w1 with currentSeek := 0 }, .returned err)
        | .ok (ret, fd2) =>
          watcherNode.readLine fuel { w1 with currentSeek := ret, fd := fd2 }

/-! ## The watcher and its environment -/

/-- The files and directories that exist: each regular file with its bytes,
and the directories.  Names are taken as written (already clean).  The working
directory of the process, ".", exists whatever the lists hold. -/
structure FileSystem where
  files : List (GoString × List Byte)
  dirs : List GoString
  deriving DecidableEq, Repr

/-- Whether a name is a directory: the working directory "." or a listed one. -/
def FileSystem.isDir (fs : FileSystem) (name : GoString) : Bool :=
  name == ascii "." || fs.dirs.contains name

/-- Whether a name exists, as a file or as a directory. -/
def FileSystem.present (fs : FileSystem) (name : GoString) : Bool :=
  (fs.files.lookup name).isSome || fs.isDir name

/-- The call `os.Open(name)`: a fresh descriptor at position 0, or the error
of a name that does not exist. -/
def FileSystem.Open (fs : FileSystem) (name : GoString) : Except IOError OsFile :=
  match fs.files.lookup name with
  | some data => .ok { name := name, data := data, pos := 0, closed := false, isDir := false }
  | none =>
    if fs.isDir name then
      .ok { name := name, data := [], pos := 0, closed := false, isDir := true }
    else .error .ENOENT

/-- Go's `filepath.Clean(name)` on a name that is clean already or empty: the
empty name becomes ".", any other name is itself. -/
def filepathClean (name : GoString) : GoString :=
  if name = [] then ascii "." else name

/-- The struct `myWatcher`.  `watcherList` is the map from file name to node,
kept as an association list with one entry for a key; `notifyWatcher` is the
set of names the fsnotify watcher is subscribed to; `config` is the `Monitor`
list of the configuration. -/
structure myWatcher where
  watcherList : List (GoString × watcherNode)
  notifyWatcher : List GoString
  config : List nodeConfiguration
  deriving DecidableEq, Repr

/-- The state the program runs in: the file system, the watcher, and the
descriptors no node refers to any more (a node's `fd` was overwritten while
they were its value); the program cannot reach those again. -/
structure Machine where
  fs : FileSystem
  w : myWatcher
  orphans : List OsFile
  deriving DecidableEq, Repr

/-- The map assignment `m[key] = node`. -/
def mapStore (m : List (GoString × watcherNode)) (key : GoString) (node : watcherNode) :
    List (GoString × watcherNode) :=
  match m with
  | [] => [(key, node)]
  | (k, v) :: rest => if k = key then (key, node) :: rest else (k, v) :: mapStore rest key node

/-- The machine after the node stored for `key` has been changed in place. -/
def Machine.setNode (m : Machine) (key : GoString) (node : watcherNode) : Machine :=
  { m with w := { m.w with watcherList := mapStore m.w.watcherList key node } }

/-- The call `w.notifyWatcher.Add(name)`: fsnotify cleans the name first (so
the empty name stands for the working directory); the cleaned name is
subscribed when it exists, and the error says so when it does not. -/
def Machine.notifyAdd (m : Machine) (name : GoString) : Except IOError Machine :=
  if m.fs.present (filepathClean name) then
    .ok { m with w := { m.w with notifyWatcher :=
      if m.w.notifyWatcher.contains (filepathClean name) then m.w.notifyWatcher
      else m.w.notifyWatcher ++ [filepathClean name] } }
  else .error .ENOENT

/-- How a call on the machine ended: it returned, the process exited with a
status, the process died of a panic, or the call was still running when the
fuel ran out. -/
inductive Run where
  | done (m : Machine)
  | exit (code : Nat) (m : Machine)
  | panic (p : Panic) (m : Machine)
  | diverge
  deriving DecidableEq, Repr

/-- Sequencing: go on with `k` when the first call returned. -/
def Run.andThen (r : Run) (k : Machine → Run) : Run :=
  match r with
  | .done m => k m
  | other => other

/-- The statement `if v, ok := w.watcherList[fileName]; ok { v.fd.Close() }`. -/
def Machine.closeStale (m : Machine) (fileName : GoString) : Machine :=
  match m.w.watcherList.lookup fileName with
  | some v => m.setNode fileName { v with fd := v.fd.Close }
  | none => m

/-- The function `addWatcher(fileName)`, with `fuel` bounding the depth of its recursion. -/
def Machine.addWatcher : Nat → Machine → GoString → Run
  | 0, _, _ => .diverge
  | fuel + 1, m, fileName =>
    match m.notifyAdd fileName with
    | .ok m1 => .done m1
    | .error err =>
      if err.IsNotExist then
        let parentDir := getParentDir fileName
        (Machine.addWatcher fuel m parentDir).andThen fun m1 =>
          .done (m1.closeStale fileName)
      else .done m

/-- The function `initRedis()`. -/
def watcherNode.initRedis (n : watcherNode) : watcherNode :=
  { n with
    redisClient := some { Addr := n.nodeConfig.Redis.Addr, Password := n.nodeConfig.Redis.Password,
                          DB := n.nodeConfig.Redis.Db, published := [] }
    sendHandler := some .redis }

/-- The function `initSenderHandler()`: the node with its send handler bound, or the status
of `os.Exit`. -/
def watcherNode.initSenderHandler (n : watcherNode) : Except Nat watcherNode :=
  if n.nodeConfig.Sendhandler = ascii "redis" then .ok n.initRedis
  else .error 4

/-- The function `initRaw()`. -/
def watcherNode.initRaw (n : watcherNode) : watcherNode := { n with lineHandler := some .raw }

/-- The function `initNginx()`. -/
def watcherNode.initNginx (n : watcherNode) : watcherNode := { n with lineHandler := some .nginx }

/-- The function `initLineHandler()`: the node with its line handler bound, or the status
of `os.Exit`. -/
def watcherNode.initLineHandler (n : watcherNode) : Except Nat watcherNode :=
  if n.nodeConfig.Linehandler = ascii "raw" then .ok n.initRaw
  else if n.nodeConfig.Linehandler = ascii "nginx" then .ok n.initNginx
  else .error 4

/-- The function `register(nodeConfig)`. -/
def Machine.register (fuel : Nat) (m : Machine) (nodeConfig : nodeConfiguration) : Run :=
  let fileName := nodeConfig.File
  (m.addWatcher fuel fileName).andThen fun m1 =>
    match m1.fs.Open fileName with
    | .error err =>
      if err.IsNotExist then
        let parentDir := getParentDir fileName
        (m1.addWatcher fuel parentDir).andThen fun m2 => .done (m2.closeStale fileName)
      else .done m1
    | .ok fd =>
      match m1.w.watcherList.lookup fileName with
      | some v =>
        .done { (m1.setNode fileName { v with fd := fd }) with orphans := m1.orphans ++ [v.fd] }
      | none =>
        let node : watcherNode :=
          { fileName := fileName, currentSeek := 0, fd := fd, redisClient := none,
            lineHandler := none, sendHandler := none, nodeConfig := nodeConfig, handled := [] }
        match node.initSenderHandler with
        | .error code => .exit code { m1 with orphans := m1.orphans ++ [fd] }
        | .ok node1 =>
          match node1.initLineHandler with
          | .error code => .exit code { m1 with orphans := m1.orphans ++ [fd] }
          | .ok node2 => .done (m1.setNode fileName node2)

/-- The loop of `initWatcher` over the configured files, after the fsnotify
watcher has been made. -/
def Machine.registerAll (fuel : Nat) : Machine → List nodeConfiguration → Run
  | m, [] => .done m
  | m, c :: rest => (m.register fuel c).andThen fun m1 => Machine.registerAll fuel m1 rest

/-- The function `initWatcher()`. -/
def Machine.initWatcher (fuel : Nat) (m : Machine) : Run :=
  Machine.registerAll fuel { m with w := { m.w with notifyWatcher := [] } } m.w.config

/-- The call `node.readLine()` on the node stored for `name`; the error it
returns is dropped by the caller. -/
def Machine.readLine (fuel : Nat) (m : Machine) (name : GoString) : Run :=
  match m.w.watcherList.lookup name with
  | none => .done m
  | some node =>
    match node.readLine fuel with
    | (node1, .returned _) => .done (m.setNode name node1)
    | (node1, .panicked p) => .panic p (m.setNode name node1)
    | (_, .running) => .diverge

/-- The bit of `fsnotify.Create`. -/
def fsnotifyCreate : Nat := 1

/-- The bit of `fsnotify.Write`. -/
def fsnotifyWrite : Nat := 2

/-- The bit of `fsnotify.Remove`. -/
def fsnotifyRemove : Nat := 4

/-- The bit of `fsnotify.Rename`. -/
def fsnotifyRename : Nat := 8

/-- The bit of `fsnotify.Chmod`. -/
def fsnotifyChmod : Nat := 16

/-- An `fsnotify.Event`: the name it is about and the bits of what happened. -/
structure Event where
  Name : GoString
  Op : Nat
  deriving DecidableEq, Repr

/-- The function `eventsHandler(event)`. -/
def Machine.eventsHandler (fuel : Nat) (m : Machine) (event : Event) : Run :=
  match m.w.watcherList.lookup event.Name with
  | none => .done m
  | some node =>
    let handled : Run :=
      if event.Op &&& fsnotifyWrite = fsnotifyWrite then m.readLine fuel event.Name
      else if event.Op &&& fsnotifyCreate = fsnotifyCreate then
        (m.register fuel node.nodeConfig).andThen fun m1 => m1.readLine fuel event.Name
      else .done m
    handled.andThen fun m1 => m1.addWatcher fuel event.Name

/-- Whether nothing of the node's file has been read or dispatched yet: no
line handled, nothing published, the descriptor at position 0. -/
def watcherNode.untouched (n : watcherNode) : Bool :=
  n.handled.isEmpty && n.fd.pos == 0 &&
    (match n.redisClient with
     | some c => c.published.isEmpty
     | none => true)

/-- Whether no line of any file has been read or dispatched: every node of the
registry is untouched. -/
def Machine.nothingRead (m : Machine) : Bool :=
  m.w.watcherList.all (fun e => e.2.untouched)

/-- The descriptors of the process that are open on `path`: those of the nodes
and those no node refers to any more. -/
def Machine.liveDescriptors (m : Machine) (path : GoString) : List OsFile :=
  (m.w.watcherList.map (fun e => e.2.fd) ++ m.orphans).filter
    (fun f => f.name = path ∧ f.closed = false)


/-! ## Specification vocabulary for the line reader -/

/-- The text made of the given lines, each followed by the line separator. -/
def joinLines : List GoString → List Byte
  | [] => []
  | l :: ls => l ++ LINE_SEP :: joinLines ls

/-- The complete lines of a text: its pieces between line separators, without
the piece after the last separator. -/
def completeLines (text : List Byte) : List GoString := (stringsSplit LINE_SEP text).dropLast

/-- The dispatch statement of `readLine` run on each of the lines in turn. -/
def watcherNode.dispatchAll : watcherNode → List GoString → Except (Panic × watcherNode) watcherNode
  | w, [] => .ok w
  | w, l :: ls =>
    match w.dispatch l with
    | .error e => .error e
    | .ok w1 => watcherNode.dispatchAll w1 ls

/-! ## Concrete inputs -/

/-- A configuration for the file "/var/log/app.log" with the given line
handler and send handler. -/
def sampleConfig (lineHandler sendHandler : String) : nodeConfiguration :=
  { File := ascii "/var/log/app.log", Linehandler := ascii lineHandler,
    Sendhandler := ascii sendHandler,
    Redis := { Addr := ascii "127.0.0.1:6379", Password := [], Db := 0, Channel := ascii "logs" } }

/-- The name a line handler has in the configuration. -/
def LineHandler.configName : LineHandler → String
  | .raw => "raw"
  | .nginx => "nginx"

/-- The node `register` makes for "/var/log/app.log" when the file holds the
given bytes: both handlers bound, nothing handled or published yet, and a
fresh descriptor. -/
def sampleNode (h : LineHandler) (data : List Byte) : watcherNode :=
  { fileName := ascii "/var/log/app.log", currentSeek := 0,
    fd := { name := ascii "/var/log/app.log", data := data, pos := 0, closed := false,
            isDir := false },
    redisClient := some { Addr := ascii "127.0.0.1:6379", Password := [], DB := 0, published := [] },
    lineHandler := some h, sendHandler := some .redis,
    nodeConfig := sampleConfig h.configName "redis", handled := [] }

/-- A file system with the directory "/var/log" and no file in it. -/
def emptyLogDir : FileSystem := { files := [], dirs := [ascii "/var/log"] }

/-- A file system with the directory "/var/log" and the file
"/var/log/app.log" holding "a\n". -/
def oneLogFile : FileSystem :=
  { files := [(ascii "/var/log/app.log", ascii "a\n")], dirs := [ascii "/var/log"] }

/-- The program before any registration, on the given file system. -/
def freshMachine (fs : FileSystem) : Machine :=
  { fs := fs, w := { watcherList := [], notifyWatcher := [], config := [] }, orphans := [] }

/-- A file system with the directory "/var/log" and in it the files
"/var/log/other.log" holding "b\n" and "/var/log/app.log" holding "a\n". -/
def twoLogFiles : FileSystem :=
  { files := [(ascii "/var/log/other.log", ascii "b\n"), (ascii "/var/log/app.log", ascii "a\n")],
    dirs := [ascii "/var/log"] }

/-- The program at startup on the file system with both files: the registry
empty, the Monitor list naming "/var/log/other.log" with known handlers first
and "/var/log/app.log" with the line handler "bogus" second. -/
def startupMachine : Machine :=
  { fs := twoLogFiles,
    w := { watcherList := [], notifyWatcher := [],
           config := [{ sampleConfig "raw" "redis" with File := ascii "/var/log/other.log" },
                      sampleConfig "bogus" "redis"] },
    orphans := [] }

/-! ## Theorems: string helpers -/

theorem stringsSplit_ne_nil (sep : Byte) (s : GoString) : stringsSplit sep s ≠ [] := by
  induction s with
  | nil => simp [stringsSplit]
  | cons c cs ih =>
    unfold stringsSplit
    split
    · simp
    · split <;> simp

/-- Go's `strings.Split` yields one piece more than the separator occurs. -/
theorem length_stringsSplit (sep : Byte) (s : GoString) :
    (stringsSplit sep s).length = s.count sep + 1 := by
  induction s with
  | nil => simp [stringsSplit]
  | cons c cs ih =>
    unfold stringsSplit
    by_cases h : c = sep
    · subst h
      simp [ih]
    · have hc : (c :: cs).count sep = cs.count sep := by
        rw [List.count_cons_of_ne (Ne.symm h)]
      rw [if_neg h, hc, ← ih]
      cases hs : stringsSplit sep cs with
      | nil => exact absurd hs (stringsSplit_ne_nil sep cs)
      | cons t ts => simp

/-- Joining the pieces of `strings.Split` with the separator gives the string back. -/
theorem intercalate_stringsSplit (sep : Byte) (s : GoString) :
    [sep].intercalate (stringsSplit sep s) = s := by
  induction s with
  | nil => simp [stringsSplit, List.intercalate]
  | cons c cs ih =>
    unfold stringsSplit
    by_cases h : c = sep
    · subst h
      rw [if_pos rfl]
      cases hs : stringsSplit c cs with
      | nil => exact absurd hs (stringsSplit_ne_nil c cs)
      | cons t ts =>
        rw [hs] at ih
        simp [List.intercalate] at ih ⊢
        exact ih
    · rw [if_neg h]
      cases hs : stringsSplit sep cs with
      | nil => exact absurd hs (stringsSplit_ne_nil sep cs)
      | cons t ts =>
        rw [hs] at ih
        simp [List.intercalate] at ih ⊢
        cases ts with
        | nil => simpa using ih
        | cons u us => simpa using ih

/-- No piece of `strings.Split` holds the separator. -/
theorem not_mem_of_mem_stringsSplit (sep : Byte) (s : GoString) :
    ∀ t ∈ stringsSplit sep s, sep ∉ t := by
  induction s with
  | nil => simp [stringsSplit]
  | cons c cs ih =>
    unfold stringsSplit
    by_cases h : c = sep
    · rw [if_pos h]
      intro t ht
      rcases List.mem_cons.1 ht with rfl | ht
      · simp
      · exact ih t ht
    · rw [if_neg h]
      cases hs : stringsSplit sep cs with
      | nil => exact absurd hs (stringsSplit_ne_nil sep cs)
      | cons u us =>
        rw [hs] at ih
        intro t ht
        rcases List.mem_cons.1 ht with rfl | ht
        · intro hmem
          rcases List.mem_cons.1 hmem with h1 | h1
          · exact h h1.symm
          · exact ih u (List.mem_cons_self _ _) h1
        · exact ih t (List.mem_cons_of_mem _ ht)

/-! ## getParentDir -/

theorem getParentDirLoop_skip (pre suf : GoString) (hsuf : SLASH ∉ suf) :
    ∀ k, k ≤ suf.length →
      getParentDirLoop (pre ++ SLASH :: suf) (pre.length + k) =
        getParentDirLoop (pre ++ SLASH :: suf) pre.length := by
  intro k
  induction k with
  | zero => intro _; rfl
  | succ k ih =>
    intro hk
    have hget : (pre ++ SLASH :: suf)[pre.length + k + 1]? = suf[k]? := by
      rw [List.getElem?_append_right (by omega)]
      have : pre.length + k + 1 - pre.length = k + 1 := by omega
      rw [this, List.getElem?_cons_succ]
    have hne : (pre ++ SLASH :: suf)[pre.length + k + 1]? ≠ some SLASH := by
      rw [hget]
      intro h
      exact hsuf (List.getElem?_mem h)
    show getParentDirLoop (pre ++ SLASH :: suf) (pre.length + k + 1) = _
    rw [getParentDirLoop, if_neg hne]
    exact ih (by omega)

theorem getParentDirLoop_hit (pre suf : GoString) :
    getParentDirLoop (pre ++ SLASH :: suf) pre.length = pre := by
  cases hp : pre.length with
  | zero =>
    have : pre = [] := List.length_eq_zero.1 hp
    subst this
    rfl
  | succ n =>
    have hget : (pre ++ SLASH :: suf)[n + 1]? = some SLASH := by
      rw [← hp, List.getElem?_append_right (le_refl _)]
      simp
    rw [getParentDirLoop, if_pos hget, ← hp]
    simp

theorem getParentDirLoop_none (path : GoString) (h : SLASH ∉ path) :
    ∀ i, getParentDirLoop path i = [] := by
  intro i
  induction i with
  | zero => rfl
  | succ i ih =>
    have hne : path[i + 1]? ≠ some SLASH := fun hh => h (List.getElem?_mem hh)
    rw [getParentDirLoop, if_neg hne]
    exact ih

/-- C9: `getParentDir` returns the part of the path before its last '/' (the
'/' itself left out) when the path holds a '/', and the empty string when it
holds none. -/
theorem getParentDir_spec :
    (∀ pre suf : GoString, SLASH ∉ suf → getParentDir (pre ++ SLASH :: suf) = pre) ∧
    (∀ path : GoString, SLASH ∉ path → getParentDir path = []) := by
  constructor
  · intro pre suf hsuf
    have hlen : (pre ++ SLASH :: suf).length - 1 = pre.length + suf.length := by simp
    unfold getParentDir
    rw [hlen, getParentDirLoop_skip pre suf hsuf suf.length (le_refl _)]
    exact getParentDirLoop_hit pre suf
  · intro path h
    exact getParentDirLoop_none path h _

/-- The parent of "/var/log/app.log" is "/var/log", and "app.log" has none. -/
theorem getParentDir_spec_witness :
    getParentDir (ascii "/var/log" ++ SLASH :: ascii "app.log") = ascii "/var/log" ∧
    getParentDir (ascii "app.log") = [] :=
  ⟨getParentDir_spec.1 (ascii "/var/log") (ascii "app.log") (by decide),
   getParentDir_spec.2 (ascii "app.log") (by decide)⟩

/-! ## lineHandlerNginx -/

theorem stringsTrimLeft_decompose (s : GoString) (cut : Byte) :
    ∃ k, s = List.replicate k cut ++ stringsTrimLeft s cut ∧
      (stringsTrimLeft s cut).head? ≠ some cut := by
  induction s with
  | nil => exact ⟨0, by simp [stringsTrimLeft]⟩
  | cons c cs ih =>
    by_cases h : c = cut
    · obtain ⟨k, hk, hhead⟩ := ih
      refine ⟨k + 1, ?_, ?_⟩
      · have : stringsTrimLeft (c :: cs) cut = stringsTrimLeft cs cut := by
          simp [stringsTrimLeft, List.dropWhile, h]
        rw [this, List.replicate_succ, List.cons_append, ← hk, h]
      · have : stringsTrimLeft (c :: cs) cut = stringsTrimLeft cs cut := by
          simp [stringsTrimLeft, List.dropWhile, h]
        rw [this]
        exact hhead
    · have : stringsTrimLeft (c :: cs) cut = c :: cs := by
        simp [stringsTrimLeft, List.dropWhile, h]
      refine ⟨0, by simp [this], ?_⟩
      rw [this]
      simpa using h

/-- C7: `lineHandlerNginx` panics with an index out of range exactly when
splitting the line on single spaces yields fewer than 9 pieces; with 9 pieces
or more it returns "time = T, code = C\n", where piece 3 is T behind a run of
leading '[' (the run is stripped, T does not start with '[' and keeps whatever
ends it) and C is piece 8. -/
theorem lineHandlerNginx_spec (line : GoString) :
    ((stringsSplit SPACE line).length < 9 ↔
        ∃ i n, lineHandlerNginx line = .error (.indexOutOfRange i n)) ∧
    (9 ≤ (stringsSplit SPACE line).length →
      ∃ k T C, (stringsSplit SPACE line)[3]? = some (List.replicate k LBRACKET ++ T) ∧
        T.head? ≠ some LBRACKET ∧
        (stringsSplit SPACE line)[8]? = some C ∧
        lineHandlerNginx line =
          .ok (ascii "time = " ++ T ++ ascii ", code = " ++ C ++ ascii "\n")) := by
  have hok : 9 ≤ (stringsSplit SPACE line).length →
      ∃ k T C, (stringsSplit SPACE line)[3]? = some (List.replicate k LBRACKET ++ T) ∧
        T.head? ≠ some LBRACKET ∧
        (stringsSplit SPACE line)[8]? = some C ∧
        lineHandlerNginx line =
          .ok (ascii "time = " ++ T ++ ascii ", code = " ++ C ++ ascii "\n") := by
    intro h9
    have h3 : (stringsSplit SPACE line)[3]? = some ((stringsSplit SPACE line)[3]) :=
      List.getElem?_eq_getElem (by omega)
    have h8 : (stringsSplit SPACE line)[8]? = some ((stringsSplit SPACE line)[8]) :=
      List.getElem?_eq_getElem (by omega)
    obtain ⟨k, hk, hhead⟩ := stringsTrimLeft_decompose ((stringsSplit SPACE line)[3]) LBRACKET
    refine ⟨k, stringsTrimLeft ((stringsSplit SPACE line)[3]) LBRACKET,
      (stringsSplit SPACE line)[8], ?_, hhead, h8, ?_⟩
    · rw [h3, ← hk]
    · simp only [lineHandlerNginx, h3, h8]
  refine ⟨⟨?_, ?_⟩, hok⟩
  · intro hlt
    by_cases h3 : (stringsSplit SPACE line).length ≤ 3
    · refine ⟨3, (stringsSplit SPACE line).length, ?_⟩
      have : (stringsSplit SPACE line)[3]? = none := List.getElem?_eq_none (by omega)
      simp only [lineHandlerNginx, this]
    · refine ⟨8, (stringsSplit SPACE line).length, ?_⟩
      have h3 : (stringsSplit SPACE line)[3]? = some ((stringsSplit SPACE line)[3]) :=
        List.getElem?_eq_getElem (by omega)
      have h8 : (stringsSplit SPACE line)[8]? = none := List.getElem?_eq_none (by omega)
      simp only [lineHandlerNginx, h3, h8]
  · rintro ⟨i, n, herr⟩
    by_contra hge
    obtain ⟨_, _, _, _, _, _, hres⟩ := hok (by omega)
    rw [hres] at herr
    cases herr

/-- An access-log line with a time zone has 12 pieces; the handler returns its
time and its status code. -/
theorem lineHandlerNginx_spec_witness :
    9 ≤ (stringsSplit SPACE
      (ascii "1.2.3.4 - - [10/Oct/2021:10:00:00 +0000] \"GET / HTTP/1.1\" 200 512 \"-\" \"curl\"")).length ∧
    ∃ k T C, (stringsSplit SPACE
      (ascii "1.2.3.4 - - [10/Oct/2021:10:00:00 +0000] \"GET / HTTP/1.1\" 200 512 \"-\" \"curl\""))[3]?
          = some (List.replicate k LBRACKET ++ T) ∧
        T.head? ≠ some LBRACKET ∧
        (stringsSplit SPACE
          (ascii "1.2.3.4 - - [10/Oct/2021:10:00:00 +0000] \"GET / HTTP/1.1\" 200 512 \"-\" \"curl\""))[8]?
          = some C ∧
        lineHandlerNginx
          (ascii "1.2.3.4 - - [10/Oct/2021:10:00:00 +0000] \"GET / HTTP/1.1\" 200 512 \"-\" \"curl\"") =
          .ok (ascii "time = " ++ T ++ ascii ", code = " ++ C ++ ascii "\n") :=
  ⟨by decide, (lineHandlerNginx_spec _).2 (by decide)⟩

/-- C8, as the code behaves: on the example line of the specification, which
has no time zone, piece 8 is the byte count 512, so the handler returns
"time = 10/Oct/2021:10:00:00], code = 512\n". -/
theorem lineHandlerNginx_example :
    lineHandlerNginx (ascii "1.2.3.4 - - [10/Oct/2021:10:00:00] \"GET / HTTP/1.1\" 200 512") =
      .ok (ascii "time = 10/Oct/2021:10:00:00], code = 512\n") := by
  decide

/-- C8, as stated, fails: the handler does not return
"time = 10/Oct/2021:10:00:00], code = 200\n" on the example line. -/
theorem lineHandlerNginx_example_not_200 :
    lineHandlerNginx (ascii "1.2.3.4 - - [10/Oct/2021:10:00:00] \"GET / HTTP/1.1\" 200 512") ≠
      .ok (ascii "time = 10/Oct/2021:10:00:00], code = 200\n") := by
  decide

/-! ## The line reader: the inner loop -/

theorem joinLines_append (xs ys : List GoString) :
    joinLines (xs ++ ys) = joinLines xs ++ joinLines ys := by
  induction xs with
  | nil => rfl
  | cons x xs ih => simp [joinLines, ih]

theorem length_joinLines (ls : List GoString) :
    (joinLines ls).length = (ls.map (fun l => l.length + 1)).sum := by
  induction ls with
  | nil => rfl
  | cons l ls ih =>
    simp only [joinLines, List.length_append, List.length_cons, List.map_cons, List.sum_cons, ih]
    omega

/-- Every text is a run of complete lines followed by a piece without separator. -/
theorem exists_joinLines (s : List Byte) :
    ∃ ls r, s = joinLines ls ++ r ∧ (∀ l ∈ ls, LINE_SEP ∉ l) ∧ LINE_SEP ∉ r := by
  induction s with
  | nil => exact ⟨[], [], rfl, by simp, by simp⟩
  | cons c cs ih =>
    obtain ⟨ls, r, hs, hls, hr⟩ := ih
    by_cases hc : c = LINE_SEP
    · refine ⟨[] :: ls, r, ?_, ?_, hr⟩
      · simp [joinLines, hs, hc]
      · intro l hl
        rcases List.mem_cons.1 hl with rfl | hl
        · simp
        · exact hls l hl
    · cases ls with
      | nil =>
        refine ⟨[], c :: r, ?_, by simp, ?_⟩
        · simpa [joinLines] using hs
        · intro hmem
          rcases List.mem_cons.1 hmem with h | h
          · exact hc h.symm
          · exact hr h
      | cons l ls =>
        refine ⟨(c :: l) :: ls, r, ?_, ?_, hr⟩
        · simp [joinLines, hs]
        · intro x hx
          rcases List.mem_cons.1 hx with rfl | hx
          · intro hmem
            rcases List.mem_cons.1 hmem with h | h
            · exact hc h.symm
            · exact hls l (List.mem_cons_self _ _) h
          · exact hls x (List.mem_cons_of_mem _ hx)

theorem rangeLoop_no_sep (buffer : List Byte) (r : List Byte) (hr : LINE_SEP ∉ r)
    (i bol : Nat) (w : watcherNode) :
    watcherNode.rangeLoop buffer r i bol w = .ok (bol, w) := by
  induction r generalizing i with
  | nil => rfl
  | cons c cs ih =>
    have hc : c ≠ LINE_SEP := fun h => hr (h ▸ List.mem_cons_self _ _)
    rw [watcherNode.rangeLoop, if_neg hc]
    exact ih (fun h => hr (List.mem_cons_of_mem _ h)) (i + 1)

theorem rangeLoop_line (buffer : List Byte) (l rest : List Byte) (hl : LINE_SEP ∉ l)
    (i bol : Nat) (w : watcherNode) :
    watcherNode.rangeLoop buffer (l ++ LINE_SEP :: rest) i bol w =
      match w.dispatch (goSlice buffer bol (i + l.length)) with
      | .error e => .error e
      | .ok w1 => watcherNode.rangeLoop buffer rest (i + l.length + 1) (i + l.length + 1) w1 := by
  induction l generalizing i with
  | nil =>
    simp only [List.nil_append, List.length_nil, Nat.add_zero]
    rw [watcherNode.rangeLoop, if_pos rfl]
  | cons c cs ih =>
    have hc : c ≠ LINE_SEP := fun h => hl (h ▸ List.mem_cons_self _ _)
    rw [List.cons_append, watcherNode.rangeLoop, if_neg hc,
      ih (fun h => hl (List.mem_cons_of_mem _ h)) (i + 1)]
    have : i + 1 + cs.length = i + (c :: cs).length := by simp; omega
    rw [this]

theorem goSlice_middle (done l rest : List Byte) :
    goSlice (done ++ (l ++ rest)) done.length (done.length + l.length) = l := by
  simp [goSlice]

/-- The inner loop over a chunk: entered at the start of a line with the lines
`ls` and then a piece without separator still to visit, it dispatches the
lines in turn and leaves `begin_of_line` behind the last of them. -/
theorem rangeLoop_joinLines (done : List Byte) (ls : List GoString) (r : List Byte)
    (hls : ∀ l ∈ ls, LINE_SEP ∉ l) (hr : LINE_SEP ∉ r) (w : watcherNode) :
    watcherNode.rangeLoop (done ++ (joinLines ls ++ r)) (joinLines ls ++ r)
        done.length done.length w =
      match w.dispatchAll ls with
      | .error e => .error e
      | .ok w1 => .ok (done.length + (joinLines ls).length, w1) := by
  induction ls generalizing done w with
  | nil =>
    simp only [joinLines, List.nil_append, watcherNode.dispatchAll, List.length_nil, Nat.add_zero]
    exact rangeLoop_no_sep _ r hr _ _ w
  | cons l ls ih =>
    have hl : LINE_SEP ∉ l := hls l (List.mem_cons_self _ _)
    have hls2 : ∀ x ∈ ls, LINE_SEP ∉ x := fun x hx => hls x (List.mem_cons_of_mem _ hx)
    have e1 : joinLines (l :: ls) ++ r = l ++ LINE_SEP :: (joinLines ls ++ r) := by
      simp [joinLines]
    rw [e1, rangeLoop_line _ l _ hl, goSlice_middle, watcherNode.dispatchAll]
    cases hd : w.dispatch l with
    | error e => rfl
    | ok w1 =>
      simp only []
      have e2 : done ++ (l ++ LINE_SEP :: (joinLines ls ++ r)) =
          (done ++ (l ++ [LINE_SEP])) ++ (joinLines ls ++ r) := by simp
      have e3 : done.length + l.length + 1 = (done ++ (l ++ [LINE_SEP])).length := by
        simp; omega
      rw [e2, e3, ih (done ++ (l ++ [LINE_SEP])) hls2 w1]
      cases watcherNode.dispatchAll w1 ls with
      | error e => rfl
      | ok w2 =>
        simp only [joinLines, List.length_append, List.length_cons, List.length_nil]
        congr 2
        omega

/-! ## The line reader: dispatching and one round of the outer loop -/

theorem dispatch_frame (w w1 : watcherNode) (l : GoString) (h : w.dispatch l = .ok w1) :
    w1.handled = w.handled ++ [l] ∧ w1.fd = w.fd ∧ w1.currentSeek = w.currentSeek ∧
      w1.lineHandler = w.lineHandler ∧ w1.sendHandler = w.sendHandler ∧
      w1.nodeConfig = w.nodeConfig ∧ w1.fileName = w.fileName := by
  unfold watcherNode.dispatch at h
  cases hL : w.lineHandler with
  | none => rw [hL] at h; cases h
  | some lh =>
    rw [hL] at h
    simp only [] at h
    cases hcall : lh.call l with
    | error p => rw [hcall] at h; cases h
    | ok msg =>
      rw [hcall] at h
      simp only [] at h
      cases hS : w.sendHandler with
      | none => rw [hS] at h; cases h
      | some sh =>
        cases sh
        rw [hS] at h
        simp only [watcherNode.senderHandlerRedis] at h
        cases hC : w.redisClient with
        | none => rw [hC] at h; cases h
        | some c =>
          rw [hC] at h
          simp only [Except.ok.injEq] at h
          subst h
          simp [hL, hS]

theorem dispatchAll_frame (ls : List GoString) :
    ∀ (w w1 : watcherNode), w.dispatchAll ls = .ok w1 →
      w1.handled = w.handled ++ ls ∧ w1.fd = w.fd ∧ w1.currentSeek = w.currentSeek ∧
      w1.lineHandler = w.lineHandler ∧ w1.sendHandler = w.sendHandler ∧
      w1.nodeConfig = w.nodeConfig ∧ w1.fileName = w.fileName := by
  induction ls with
  | nil =>
    intro w w1 h
    simp only [watcherNode.dispatchAll, Except.ok.injEq] at h
    subst h
    simp
  | cons l ls ih =>
    intro w w1 h
    rw [watcherNode.dispatchAll] at h
    cases hd : w.dispatch l with
    | error e => rw [hd] at h; cases h
    | ok w2 =>
      rw [hd] at h
      simp only [] at h
      obtain ⟨a1, a2, a3, a4, a5, a6, a7⟩ := dispatch_frame w w2 l hd
      obtain ⟨b1, b2, b3, b4, b5, b6, b7⟩ := ih w2 w1 h
      refine ⟨?_, ?_, ?_, ?_, ?_, ?_, ?_⟩
      · rw [b1, a1]; simp
      · rw [b2, a2]
      · rw [b3, a3]
      · rw [b4, a4]
      · rw [b5, a5]
      · rw [b6, a6]
      · rw [b7, a7]

/-- With both handlers and the client bound and the line handler returning
`f l` on each line, dispatching the lines passes each to the line handler and
publishes each result, in order. -/
theorem dispatchAll_bound (h : LineHandler) (f : GoString → GoString) (ls : List GoString) :
    ∀ (w : watcherNode) (c : RedisClient),
      w.lineHandler = some h → w.sendHandler = some .redis → w.redisClient = some c →
      (∀ l ∈ ls, h.call l = .ok (f l)) →
      w.dispatchAll ls = .ok { w with
        handled := w.handled ++ ls,
        redisClient := some { c with
          published := c.published ++ ls.map (fun l => (w.nodeConfig.Redis.Channel, f l)) } } := by
  induction ls with
  | nil =>
    intro w c _ _ hC _
    simp [watcherNode.dispatchAll, ← hC]
  | cons l ls ih =>
    intro w c hL hS hC hf
    have hl : h.call l = .ok (f l) := hf l (List.mem_cons_self _ _)
    have hd : w.dispatch l = .ok { w with
        handled := w.handled ++ [l],
        redisClient := some (c.Publish w.nodeConfig.Redis.Channel (f l)) } := by
      simp [watcherNode.dispatch, hL, hl, hS, watcherNode.senderHandlerRedis, hC]
    rw [watcherNode.dispatchAll, hd]
    simp only []
    rw [ih { w with
        handled := w.handled ++ [l],
        redisClient := some (c.Publish w.nodeConfig.Redis.Channel (f l)) }
      (c.Publish w.nodeConfig.Redis.Channel (f l)) hL hS rfl
      (fun x hx => hf x (List.mem_cons_of_mem _ hx))]
    simp [RedisClient.Publish]

/-- One round of the outer loop of `readLine` on an open file whose next chunk
is not empty: the complete lines of the chunk are dispatched and the loop goes
on from the position behind the last of them. -/
theorem readLine_round (fuel : Nat) (w : watcherNode) (ls : List GoString) (r : List Byte)
    (hclosed : w.fd.closed = false) (hdir : w.fd.isDir = false)
    (hchunk : (w.fd.data.drop w.fd.pos).take BUFF_SIZE = joinLines ls ++ r)
    (hne : joinLines ls ++ r ≠ [])
    (hls : ∀ l ∈ ls, LINE_SEP ∉ l) (hr : LINE_SEP ∉ r) :
    w.readLine (fuel + 1) =
      match ({ w with fd := { w.fd with pos := w.fd.pos + (joinLines ls ++ r).length } }
          : watcherNode).dispatchAll ls with
      | .error (p, w1) => (w1, .panicked p)
      | .ok w1 =>
        watcherNode.readLine fuel { w1 with
          currentSeek := ((w.fd.pos + (joinLines ls).length : Nat) : Int),
          fd := { w.fd with pos := w.fd.pos + (joinLines ls).length } } := by
  have hread : w.fd.Read BUFF_SIZE =
      .ok (joinLines ls ++ r, { w.fd with pos := w.fd.pos + (joinLines ls ++ r).length }) := by
    simp only [OsFile.Read, hclosed, hdir, hchunk]
    simp [hne]
  have hloop := rangeLoop_joinLines [] ls r hls hr
    { w with fd := { w.fd with pos := w.fd.pos + (joinLines ls ++ r).length } }
  simp only [List.nil_append, List.length_nil, Nat.zero_add] at hloop
  rw [watcherNode.readLine, hread]
  simp only []
  rw [hloop]
  cases hd : watcherNode.dispatchAll
      { w with fd := { w.fd with pos := w.fd.pos + (joinLines ls ++ r).length } } ls with
  | error e =>
    obtain ⟨p, w1⟩ := e
    rfl
  | ok w1 =>
    obtain ⟨-, hfd, -⟩ := dispatchAll_frame ls _ w1 hd
    simp only []
    have hseek : w1.fd.Seek (((joinLines ls).length : Int) - ((joinLines ls ++ r).length : Int)) =
        .ok (((w.fd.pos + (joinLines ls).length : Nat) : Int),
          { w.fd with pos := w.fd.pos + (joinLines ls).length }) := by
      rw [hfd]
      simp only [OsFile.Seek, hclosed]
      have e1 : ((w.fd.pos + (joinLines ls ++ r).length : Nat) : Int) +
          (((joinLines ls).length : Int) - ((joinLines ls ++ r).length : Int)) =
          ((w.fd.pos + (joinLines ls).length : Nat) : Int) := by
        push_cast
        omega
      have hnn : ¬ (((w.fd.pos + (joinLines ls).length : Nat) : Int) < 0) := by omega
      simp only [e1, Bool.false_eq_true, if_false, if_neg hnn, Int.toNat_ofNat]
    rw [hseek]

/-! ## The line reader: a chunk without separator -/

/-- A chunk that is not empty and holds no separator: the round dispatches
nothing and rewinds fully, and the loop reads the same chunk again; with any
fuel `readLine` is still running, the descriptor where it was. -/
theorem readLine_no_separator (w : watcherNode)
    (hclosed : w.fd.closed = false) (hdir : w.fd.isDir = false)
    (hne : (w.fd.data.drop w.fd.pos).take BUFF_SIZE ≠ [])
    (hsep : LINE_SEP ∉ (w.fd.data.drop w.fd.pos).take BUFF_SIZE) :
    ∀ fuel, w.readLine (fuel + 1) = ({ w with currentSeek := (w.fd.pos : Int) }, .running) := by
  have key : ∀ fuel (v : watcherNode), v.fd = w.fd →
      v.readLine (fuel + 1) = ({ v with currentSeek := (w.fd.pos : Int) }, .running) := by
    intro fuel
    induction fuel with
    | zero =>
      intro v hv
      have h := readLine_round 0 v [] ((w.fd.data.drop w.fd.pos).take BUFF_SIZE)
        (by rw [hv]; exact hclosed) (by rw [hv]; exact hdir) (by rw [hv]; rfl)
        (by simpa [joinLines] using hne) (by simp) hsep
      rw [h]
      simp only [watcherNode.dispatchAll, joinLines, List.length_nil, Nat.add_zero,
        watcherNode.readLine, hv]
    | succ n ih =>
      intro v hv
      have h := readLine_round (n + 1) v [] ((w.fd.data.drop w.fd.pos).take BUFF_SIZE)
        (by rw [hv]; exact hclosed) (by rw [hv]; exact hdir) (by rw [hv]; rfl)
        (by simpa [joinLines] using hne) (by simp) hsep
      rw [h]
      simp only [watcherNode.dispatchAll, joinLines, List.length_nil, Nat.add_zero, hv]
      exact ih _ rfl
  intro fuel
  exact key fuel w rfl

/-! ## The line reader: the offset -/

theorem drop_pos_split (data : List Byte) (pos n : Nat) (a r : List Byte)
    (h : (data.drop pos).take n = a ++ r) :
    data.drop pos = a ++ data.drop (pos + a.length) := by
  have h1 : data.drop pos = (a ++ r) ++ (data.drop pos).drop n := by
    rw [← h, List.take_append_drop]
  have h2 : data.drop (pos + a.length) = (data.drop pos).drop a.length := by
    rw [List.drop_drop, Nat.add_comm]
  rw [h2]
  conv_rhs => rw [h1]
  rw [List.append_assoc, List.drop_left]
  rw [← List.append_assoc]
  exact h1

/-- Whatever the file holds: when no handler panics, a run of `readLine` (to
its return, or as far as the fuel goes) has passed to the line handler a list
of complete lines that lie in the file from the first position on, and the
descriptor has moved by exactly their bytes, separators included. -/
theorem readLine_consumed (fuel : Nat) :
    ∀ w : watcherNode, (∀ p, (w.readLine fuel).2 ≠ .panicked p) →
      ∃ ls : List GoString, (∀ l ∈ ls, LINE_SEP ∉ l) ∧
        (w.readLine fuel).1.handled = w.handled ++ ls ∧
        (w.readLine fuel).1.fd.data = w.fd.data ∧
        (w.readLine fuel).1.fd.pos = w.fd.pos + (joinLines ls).length ∧
        w.fd.data.drop w.fd.pos =
          joinLines ls ++ w.fd.data.drop (w.fd.pos + (joinLines ls).length) ∧
        ((w.readLine fuel).1.currentSeek = ((w.readLine fuel).1.fd.pos : Int) ∨
          (ls = [] ∧ (w.readLine fuel).1.currentSeek = w.currentSeek)) := by
  induction fuel with
  | zero =>
    intro w _
    exact ⟨[], by simp, by simp [watcherNode.readLine], rfl, by simp [watcherNode.readLine, joinLines],
      by simp [joinLines], Or.inr ⟨rfl, rfl⟩⟩
  | succ n ih =>
    intro w hnp
    by_cases hopen : w.fd.closed = false ∧ w.fd.isDir = false ∧
        (w.fd.data.drop w.fd.pos).take BUFF_SIZE ≠ []
    · obtain ⟨hclosed, hdir, hne⟩ := hopen
      obtain ⟨ls, r, hchunk, hls, hr⟩ := exists_joinLines ((w.fd.data.drop w.fd.pos).take BUFF_SIZE)
      have hround := readLine_round n w ls r hclosed hdir hchunk (hchunk ▸ hne) hls hr
      cases hd : watcherNode.dispatchAll
          { w with fd := { w.fd with pos := w.fd.pos + (joinLines ls ++ r).length } } ls with
      | error e =>
        obtain ⟨p, w1⟩ := e
        rw [hd] at hround
        exact absurd (by rw [hround]) (hnp p)
      | ok w1 =>
        rw [hd] at hround
        simp only [] at hround
        obtain ⟨f1, -, -, -⟩ := dispatchAll_frame ls _ w1 hd
        have hnp2 : ∀ p, (watcherNode.readLine n { w1 with
            currentSeek := ((w.fd.pos + (joinLines ls).length : Nat) : Int),
            fd := { w.fd with pos := w.fd.pos + (joinLines ls).length } }).2 ≠ .panicked p := by
          intro p
          rw [← hround]
          exact hnp p
        obtain ⟨ls2, hls2, g1, g2, g3, g4, g5⟩ := ih _ hnp2
        rw [← hround] at g1 g2 g3 g5
        simp only [] at g1 g2 g3 g4 g5
        have hsplit := drop_pos_split w.fd.data w.fd.pos BUFF_SIZE (joinLines ls) r hchunk
        refine ⟨ls ++ ls2, ?_, ?_, g2, ?_, ?_, ?_⟩
        · intro l hl
          rcases List.mem_append.1 hl with h | h
          · exact hls l h
          · exact hls2 l h
        · rw [g1, f1]; simp
        · rw [g3, joinLines_append, List.length_append]; omega
        · rw [joinLines_append, List.length_append, List.append_assoc, ← Nat.add_assoc, ← g4]
          exact hsplit
        · rcases g5 with g5 | ⟨h1, h2⟩
          · exact Or.inl g5
          · left
            rw [h2, g3, h1]
            simp [joinLines]
    · have hread : ∃ err, w.fd.Read BUFF_SIZE = .error err := by
        unfold OsFile.Read
        by_cases h1 : w.fd.closed = true
        · exact ⟨_, by rw [if_pos h1]⟩
        · by_cases h2 : w.fd.isDir = true
          · exact ⟨_, by rw [if_neg h1, if_pos h2]⟩
          · have h3 : (w.fd.data.drop w.fd.pos).take BUFF_SIZE = [] := by
              by_contra h3
              exact hopen ⟨by simpa using h1, by simpa using h2, h3⟩
            exact ⟨.EOF, by
              rw [if_neg h1, if_neg h2]
              exact if_pos ⟨h3, by decide⟩⟩
      obtain ⟨err, hread⟩ := hread
      have hres : w.readLine (n + 1) = (w, .returned err) := by
        rw [watcherNode.readLine, hread]
      rw [hres]
      exact ⟨[], by simp, by simp, rfl, by simp [joinLines], by simp [joinLines], Or.inr ⟨rfl, rfl⟩⟩

/-! ## The line reader: terminated lines that fit the buffer -/

/-- A prefix of a text of terminated lines is some of the first lines, whole,
and then a piece without separator; it holds the first line whole when that
line fits. -/
theorem take_joinLines (ls : List GoString) (hls : ∀ l ∈ ls, LINE_SEP ∉ l) :
    ∀ n, ∃ k r, (joinLines ls).take n = joinLines (ls.take k) ++ r ∧ LINE_SEP ∉ r ∧
      (∀ l rest, ls = l :: rest → l.length + 1 ≤ n → 1 ≤ k) := by
  induction ls with
  | nil =>
    intro n
    exact ⟨0, [], by simp [joinLines], by simp, by simp⟩
  | cons l ls ih =>
    intro n
    have hl : LINE_SEP ∉ l := hls l (List.mem_cons_self _ _)
    by_cases hn : n ≤ l.length
    · refine ⟨0, l.take n, ?_, ?_, ?_⟩
      · simp only [joinLines, List.take_zero, List.nil_append]
        exact List.take_append_of_le_length hn
      · exact fun h => hl (List.mem_of_mem_take h)
      · intro l' rest heq hle
        simp only [List.cons.injEq] at heq
        rw [← heq.1] at hle
        omega
    · obtain ⟨k, r, hk, hr, -⟩ := ih (fun x hx => hls x (List.mem_cons_of_mem _ hx))
        (n - l.length - 1)
      refine ⟨k + 1, r, ?_, hr, fun _ _ _ _ => by omega⟩
      have hn2 : n = l.length + ((n - l.length - 1) + 1) := by omega
      have e : (joinLines (l :: ls)).take n =
          l ++ LINE_SEP :: (joinLines ls).take (n - l.length - 1) := by
        conv_lhs => rw [hn2]
        simp only [joinLines]
        rw [List.take_append, List.take_succ_cons]
      rw [e, hk]
      simp [joinLines]

theorem drop_joinLines_take (ls : List GoString) (k : Nat) :
    (joinLines ls).drop (joinLines (ls.take k)).length = joinLines (ls.drop k) := by
  have h : joinLines ls = joinLines (ls.take k) ++ joinLines (ls.drop k) := by
    rw [← joinLines_append, List.take_append_drop]
  rw [h, List.drop_left]

/-- From the first position on the file holds the lines `ls`, each terminated
and none longer than the buffer with its separator; both handlers are bound
and the line handler returns `f l` on each line.  Then with more fuel than
there are lines `readLine` returns (the error is the end of the file), has
passed exactly the lines to the line handler and published exactly their
results, in order, and the descriptor is behind the last line. -/
theorem readLine_joinLines (h : LineHandler) (f : GoString → GoString) (fuel : Nat) :
    ∀ (ls : List GoString) (w : watcherNode) (c : RedisClient),
      ls.length < fuel →
      (∀ l ∈ ls, LINE_SEP ∉ l) → (∀ l ∈ ls, l.length + 1 ≤ BUFF_SIZE) →
      w.fd.closed = false → w.fd.isDir = false →
      w.fd.data.drop w.fd.pos = joinLines ls →
      w.lineHandler = some h → w.sendHandler = some .redis → w.redisClient = some c →
      (∀ l ∈ ls, h.call l = .ok (f l)) →
      w.readLine fuel =
        ({ w with
            handled := w.handled ++ ls,
            redisClient := some { c with
              published := c.published ++ ls.map (fun l => (w.nodeConfig.Redis.Channel, f l)) },
            currentSeek :=
              if ls = [] then w.currentSeek else ((w.fd.pos + (joinLines ls).length : Nat) : Int),
            fd := { w.fd with pos := w.fd.pos + (joinLines ls).length } },
          .returned .EOF) := by
  induction fuel with
  | zero => intro ls w c hlt; omega
  | succ n ih =>
    intro ls w c hlt hls hlen hclosed hdir hdata hL hS hC hf
    cases ls with
    | nil =>
      have hread : w.fd.Read BUFF_SIZE = .error .EOF := by
        unfold OsFile.Read
        rw [hclosed, hdir, hdata]
        rfl
      rw [watcherNode.readLine, hread]
      simp [joinLines, ← hC]
    | cons l rest =>
      obtain ⟨k, r, hk, hr, hk1⟩ := take_joinLines (l :: rest) hls BUFF_SIZE
      have hkpos : 1 ≤ k := hk1 l rest rfl (hlen l (List.mem_cons_self _ _))
      have hsub : ∀ x ∈ (l :: rest).take k, x ∈ l :: rest := fun x hx => List.mem_of_mem_take hx
      have hsubd : ∀ x ∈ (l :: rest).drop k, x ∈ l :: rest := fun x hx => List.mem_of_mem_drop hx
      have hchunk : (w.fd.data.drop w.fd.pos).take BUFF_SIZE = joinLines ((l :: rest).take k) ++ r := by
        rw [hdata, hk]
      have hne : joinLines ((l :: rest).take k) ++ r ≠ [] := by
        obtain ⟨k', rfl⟩ : ∃ k', k = k' + 1 := ⟨k - 1, by omega⟩
        simp [joinLines]
      have hround := readLine_round n w ((l :: rest).take k) r hclosed hdir hchunk hne
        (fun x hx => hls x (hsub x hx)) hr
      have hd := dispatchAll_bound h f ((l :: rest).take k)
        { w with fd := { w.fd with
            pos := w.fd.pos + (joinLines ((l :: rest).take k) ++ r).length } }
        c hL hS hC (fun x hx => hf x (hsub x hx))
      rw [hd] at hround
      simp only [] at hround
      rw [hround]
      have hdata2 : w.fd.data.drop (w.fd.pos + (joinLines ((l :: rest).take k)).length) =
          joinLines ((l :: rest).drop k) := by
        have e : w.fd.data.drop (w.fd.pos + (joinLines ((l :: rest).take k)).length) =
            (w.fd.data.drop w.fd.pos).drop (joinLines ((l :: rest).take k)).length := by
          rw [List.drop_drop, Nat.add_comm]
        rw [e, hdata, drop_joinLines_take]
      have hlt2 : ((l :: rest).drop k).length < n := by
        simp only [List.length_drop, List.length_cons] at hlt ⊢
        omega
      rw [ih ((l :: rest).drop k)
        { w with
          currentSeek := ((w.fd.pos + (joinLines ((l :: rest).take k)).length : Nat) : Int),
          fd := { w.fd with pos := w.fd.pos + (joinLines ((l :: rest).take k)).length },
          redisClient := some { c with
            published := c.published ++
              ((l :: rest).take k).map (fun x => (w.nodeConfig.Redis.Channel, f x)) },
          handled := w.handled ++ (l :: rest).take k }
        { c with
          published := c.published ++
            ((l :: rest).take k).map (fun x => (w.nodeConfig.Redis.Channel, f x)) }
        hlt2 (fun x hx => hls x (hsubd x hx))
        (fun x hx => hlen x (hsubd x hx)) hclosed hdir hdata2 hL hS rfl
        (fun x hx => hf x (hsubd x hx))]
      have hjoin : (joinLines ((l :: rest).take k)).length + (joinLines ((l :: rest).drop k)).length
          = (joinLines (l :: rest)).length := by
        rw [← List.length_append, ← joinLines_append, List.take_append_drop]
      have htd : (l :: rest).take k ++ (l :: rest).drop k = l :: rest := List.take_append_drop _ _
      have hmap : List.map (fun x => (w.nodeConfig.Redis.Channel, f x)) ((l :: rest).take k) ++
          List.map (fun x => (w.nodeConfig.Redis.Channel, f x)) ((l :: rest).drop k) =
          List.map (fun x => (w.nodeConfig.Redis.Channel, f x)) (l :: rest) := by
        rw [← List.map_append, htd]
      simp only [Prod.mk.injEq, and_true, watcherNode.mk.injEq, true_and, List.append_assoc,
        htd, hmap, Option.some.injEq, RedisClient.mk.injEq, OsFile.mk.injEq, Nat.add_assoc, hjoin]
      by_cases hdk : (l :: rest).drop k = []
      · rw [if_pos hdk, if_neg (List.cons_ne_nil _ _)]
        have : (joinLines ((l :: rest).drop k)).length = 0 := by rw [hdk]; rfl
        rw [← hjoin, this, Nat.add_zero]
      · rw [if_neg hdk, if_neg (List.cons_ne_nil _ _)]

/-! ## Complete lines and terminated texts -/

theorem stringsSplit_no_sep (sep : Byte) (r : GoString) (hr : sep ∉ r) :
    stringsSplit sep r = [r] := by
  induction r with
  | nil => rfl
  | cons c cs ih =>
    have hc : c ≠ sep := fun h => hr (h ▸ List.mem_cons_self _ _)
    rw [stringsSplit, if_neg hc, ih (fun h => hr (List.mem_cons_of_mem _ h))]

theorem stringsSplit_line (sep : Byte) (l rest : GoString) (hl : sep ∉ l) :
    stringsSplit sep (l ++ sep :: rest) = l :: stringsSplit sep rest := by
  induction l with
  | nil => simp [stringsSplit]
  | cons c cs ih =>
    have hc : c ≠ sep := fun h => hl (h ▸ List.mem_cons_self _ _)
    rw [List.cons_append, stringsSplit, if_neg hc, ih (fun h => hl (List.mem_cons_of_mem _ h))]

theorem stringsSplit_joinLines (ls : List GoString) (r : GoString)
    (hls : ∀ l ∈ ls, LINE_SEP ∉ l) (hr : LINE_SEP ∉ r) :
    stringsSplit LINE_SEP (joinLines ls ++ r) = ls ++ [r] := by
  induction ls with
  | nil => simpa [joinLines] using stringsSplit_no_sep LINE_SEP r hr
  | cons l ls ih =>
    have e : joinLines (l :: ls) ++ r = l ++ LINE_SEP :: (joinLines ls ++ r) := by
      simp [joinLines]
    rw [e, stringsSplit_line LINE_SEP l _ (hls l (List.mem_cons_self _ _)),
      ih (fun x hx => hls x (List.mem_cons_of_mem _ hx))]
    rfl

/-- The complete lines of a text of terminated lines followed by a piece
without separator are those lines. -/
theorem completeLines_joinLines (ls : List GoString) (r : GoString)
    (hls : ∀ l ∈ ls, LINE_SEP ∉ l) (hr : LINE_SEP ∉ r) :
    completeLines (joinLines ls ++ r) = ls := by
  rw [completeLines, stringsSplit_joinLines ls r hls hr, List.dropLast_concat]

theorem not_mem_of_mem_completeLines (s : List Byte) : ∀ l ∈ completeLines s, LINE_SEP ∉ l :=
  fun l hl => not_mem_of_mem_stringsSplit LINE_SEP s l (List.dropLast_subset _ hl)

/-- A text that is empty or ends with the separator is its complete lines,
each followed by the separator. -/
theorem joinLines_completeLines (s : List Byte)
    (hend : s = [] ∨ s.getLast? = some LINE_SEP) :
    joinLines (completeLines s) = s := by
  obtain ⟨ls, r, hs, hls, hr⟩ := exists_joinLines s
  have hr0 : r = [] := by
    by_contra hne
    rcases hend with h | h
    · rw [h] at hs
      have := congrArg List.length hs
      simp only [List.length_nil, List.length_append] at this
      exact hne (List.length_eq_zero.1 (by omega))
    · rw [hs, List.getLast?_append_of_ne_nil _ hne] at h
      exact hr (List.mem_of_getLast?_eq_some h)
  subst hr0
  rw [hs, completeLines_joinLines ls [] hls hr, List.append_nil]

/-- Writes that each end with the separator give a text that is empty or ends
with the separator. -/
theorem flatten_writes_terminated (writes : List (List Byte))
    (hw : ∀ x ∈ writes, x.getLast? = some LINE_SEP) :
    writes.flatten = [] ∨ writes.flatten.getLast? = some LINE_SEP := by
  induction writes with
  | nil => exact Or.inl rfl
  | cons x xs ih =>
    right
    rw [List.flatten_cons]
    rcases ih (fun y hy => hw y (List.mem_cons_of_mem _ hy)) with h | h
    · rw [h, List.append_nil]
      exact hw x (List.mem_cons_self _ _)
    · rw [List.getLast?_append, h]
      rfl

/-! ## The claims about the line reader -/

/-- C2: a run of `readLine` that starts with the descriptor at the stored
offset and in which no handler panics has passed to the line handler complete
lines `ls` that lie in the file from that offset on; afterwards the stored
offset `currentSeek` is the previous offset plus the bytes of those lines,
separators included, and the descriptor is there too, so what follows the last
consumed separator is not counted. -/
theorem readLine_offset (fuel : Nat) (w : watcherNode)
    (hseek : w.currentSeek = (w.fd.pos : Int))
    (hnp : ∀ p, (w.readLine fuel).2 ≠ .panicked p) :
    ∃ ls : List GoString, (∀ l ∈ ls, LINE_SEP ∉ l) ∧
      (w.readLine fuel).1.handled = w.handled ++ ls ∧
      w.fd.data.drop w.fd.pos = joinLines ls ++
        (w.readLine fuel).1.fd.data.drop (w.readLine fuel).1.fd.pos ∧
      (w.readLine fuel).1.currentSeek =
        w.currentSeek + ((ls.map (fun l => l.length + 1)).sum : Nat) ∧
      ((w.readLine fuel).1.fd.pos : Int) = (w.readLine fuel).1.currentSeek := by
  obtain ⟨ls, hls, h1, h2, h3, h4, h5⟩ := readLine_consumed fuel w hnp
  have hseek2 : (w.readLine fuel).1.currentSeek = ((w.readLine fuel).1.fd.pos : Int) := by
    rcases h5 with h5 | ⟨h5, h6⟩
    · exact h5
    · rw [h6, hseek, h3, h5]
      simp [joinLines]
  refine ⟨ls, hls, h1, ?_, ?_, hseek2.symm⟩
  · rw [h2, h3]
    exact h4
  · rw [hseek2, h3, hseek, ← length_joinLines]
    push_cast
    rfl

/-- C2 at a file "ab\ncd\nef" read from position 0 with fuel for four rounds:
no handler panics, so the offset has moved by the bytes of the lines handled. -/
theorem readLine_offset_witness :
    ∃ ls : List GoString, (∀ l ∈ ls, LINE_SEP ∉ l) ∧
      ((sampleNode .raw (ascii "ab\ncd\nef")).readLine 4).1.handled =
        (sampleNode .raw (ascii "ab\ncd\nef")).handled ++ ls ∧
      (sampleNode .raw (ascii "ab\ncd\nef")).fd.data.drop
          (sampleNode .raw (ascii "ab\ncd\nef")).fd.pos = joinLines ls ++
        ((sampleNode .raw (ascii "ab\ncd\nef")).readLine 4).1.fd.data.drop
          ((sampleNode .raw (ascii "ab\ncd\nef")).readLine 4).1.fd.pos ∧
      ((sampleNode .raw (ascii "ab\ncd\nef")).readLine 4).1.currentSeek =
        (sampleNode .raw (ascii "ab\ncd\nef")).currentSeek +
          ((ls.map (fun l => l.length + 1)).sum : Nat) ∧
      (((sampleNode .raw (ascii "ab\ncd\nef")).readLine 4).1.fd.pos : Int) =
        ((sampleNode .raw (ascii "ab\ncd\nef")).readLine 4).1.currentSeek :=
  readLine_offset 4 (sampleNode .raw (ascii "ab\ncd\nef")) (by decide)
    (fun p hp => by
      have e : ((sampleNode .raw (ascii "ab\ncd\nef")).readLine 4).2 = .running := by decide
      rw [e] at hp
      cases hp)

/-- C10, as the code behaves: from the current position to its end the file is
empty or ends with the separator, each of its lines is at most `BUFF_SIZE`
bytes long with its separator, the handlers are bound and the line handler
returns `f l` on each line `l`.  Then `readLine` returns (with more fuel than
there are lines; the error is the end of the file), the line handler has been
called on each line once, in file order, each result has been published once,
in the same order, and the descriptor is at the end of the file. -/
theorem readLine_terminated_lines (w : watcherNode) (h : LineHandler) (f : GoString → GoString)
    (c : RedisClient) (fuel : Nat)
    (hclosed : w.fd.closed = false) (hdir : w.fd.isDir = false)
    (hend : w.fd.data.drop w.fd.pos = [] ∨ (w.fd.data.drop w.fd.pos).getLast? = some LINE_SEP)
    (hlen : ∀ l ∈ completeLines (w.fd.data.drop w.fd.pos), l.length + 1 ≤ BUFF_SIZE)
    (hL : w.lineHandler = some h) (hS : w.sendHandler = some .redis)
    (hC : w.redisClient = some c)
    (hf : ∀ l ∈ completeLines (w.fd.data.drop w.fd.pos), h.call l = .ok (f l))
    (hfuel : (completeLines (w.fd.data.drop w.fd.pos)).length < fuel) :
    (w.readLine fuel).2 = .returned .EOF ∧
    (w.readLine fuel).1.handled = w.handled ++ completeLines (w.fd.data.drop w.fd.pos) ∧
    (w.readLine fuel).1.redisClient = some { c with
      published := c.published ++ (completeLines (w.fd.data.drop w.fd.pos)).map
        (fun l => (w.nodeConfig.Redis.Channel, f l)) } ∧
    (w.readLine fuel).1.fd.data = w.fd.data ∧
    (w.readLine fuel).1.fd.pos = w.fd.pos + (w.fd.data.drop w.fd.pos).length := by
  have hjoin := joinLines_completeLines (w.fd.data.drop w.fd.pos) hend
  have hres := readLine_joinLines h f fuel (completeLines (w.fd.data.drop w.fd.pos)) w c hfuel
    (not_mem_of_mem_completeLines _) hlen hclosed hdir hjoin.symm hL hS hC hf
  rw [hres, hjoin]
  exact ⟨rfl, rfl, rfl, rfl, rfl⟩

/-- C10 at the file "ab\ncd\n" with the raw handler: `readLine` returns with
both lines handled and published and the descriptor at byte 6. -/
theorem readLine_terminated_lines_witness :
    ((sampleNode .raw (ascii "ab\ncd\n")).readLine 3).2 = .returned .EOF ∧
    ((sampleNode .raw (ascii "ab\ncd\n")).readLine 3).1.handled = [ascii "ab", ascii "cd"] ∧
    ((sampleNode .raw (ascii "ab\ncd\n")).readLine 3).1.redisClient =
      some { Addr := ascii "127.0.0.1:6379", Password := [], DB := 0,
             published := [(ascii "logs", ascii "ab"), (ascii "logs", ascii "cd")] } ∧
    ((sampleNode .raw (ascii "ab\ncd\n")).readLine 3).1.fd.pos = 6 := by
  obtain ⟨h1, h2, h3, -, h5⟩ := readLine_terminated_lines (sampleNode .raw (ascii "ab\ncd\n"))
    .raw id { Addr := ascii "127.0.0.1:6379", Password := [], DB := 0, published := [] } 3
    (by decide) (by decide) (by decide) (by decide) (by decide) (by decide) (by decide)
    (by decide) (by decide)
  exact ⟨h1, h2.trans (by decide), h3.trans (by decide), h5.trans (by decide)⟩

/-- C10, as stated, fails: on the file "x\n" with the nginx handler bound, the
handler panics on the line "x" (it has one piece), so `readLine` does not
return and nothing is published. -/
theorem readLine_nginx_short_line_panics :
    (¬ ∃ fuel err, ((sampleNode .nginx (ascii "x\n")).readLine fuel).2 = .returned err) ∧
    ((sampleNode .nginx (ascii "x\n")).readLine 1).2 = .panicked (.indexOutOfRange 3 1) ∧
    ((sampleNode .nginx (ascii "x\n")).readLine 1).1.redisClient =
      (sampleNode .nginx (ascii "x\n")).redisClient := by
  refine ⟨?_, by decide, by decide⟩
  rintro ⟨fuel, err, h⟩
  cases fuel with
  | zero =>
    have e0 : ((sampleNode .nginx (ascii "x\n")).readLine 0).2 = .running := by decide
    rw [e0] at h
    cases h
  | succ n =>
    have e : (sampleNode .nginx (ascii "x\n")).readLine (n + 1) =
        (sampleNode .nginx (ascii "x\n")).readLine 1 := by
      rw [watcherNode.readLine, watcherNode.readLine]
      rfl
    have e1 : ((sampleNode .nginx (ascii "x\n")).readLine 1).2 =
        .panicked (.indexOutOfRange 3 1) := by decide
    rw [e, e1] at h
    cases h

/-- C1, as the code behaves: the file holds, from the descriptor's position
on, the bytes of a sequence of writes that each end with the separator; each
line written is at most `BUFF_SIZE` bytes long with its separator, the handlers
are bound and the line handler returns on each line.  Then `readLine` returns
(with more fuel than there are lines) and has passed to the line handler
exactly the lines written, in order, each once. -/
theorem readLine_dispatches_writes (writes : List (List Byte)) (w : watcherNode)
    (h : LineHandler) (c : RedisClient) (fuel : Nat)
    (hw : ∀ x ∈ writes, x.getLast? = some LINE_SEP)
    (hlen : ∀ l ∈ completeLines writes.flatten, l.length + 1 ≤ BUFF_SIZE)
    (hclosed : w.fd.closed = false) (hdir : w.fd.isDir = false)
    (hdata : w.fd.data.drop w.fd.pos = writes.flatten)
    (hL : w.lineHandler = some h) (hS : w.sendHandler = some .redis)
    (hC : w.redisClient = some c)
    (hf : ∀ l ∈ completeLines writes.flatten, ∃ msg, h.call l = .ok msg)
    (hfuel : (completeLines writes.flatten).length < fuel) :
    (w.readLine fuel).2 = .returned .EOF ∧
    (w.readLine fuel).1.handled = w.handled ++ completeLines writes.flatten ∧
    joinLines (completeLines writes.flatten) = writes.flatten := by
  have hjoin := joinLines_completeLines writes.flatten (flatten_writes_terminated writes hw)
  have hf2 : ∀ l ∈ completeLines writes.flatten,
      h.call l = .ok (match h.call l with | .ok msg => msg | .error _ => []) := by
    intro l hl
    obtain ⟨msg, hmsg⟩ := hf l hl
    rw [hmsg]
  have hres := readLine_joinLines h (fun l => match h.call l with | .ok msg => msg | .error _ => [])
    fuel (completeLines writes.flatten) w c hfuel
    (not_mem_of_mem_completeLines _) hlen hclosed hdir (hdata.trans hjoin.symm) hL hS hC hf2
  rw [hres]
  exact ⟨rfl, rfl, hjoin⟩

/-- C1 at the writes "ab\n" and "cd\nef\n" with the raw handler: the lines
"ab", "cd", "ef" are handled, in this order. -/
theorem readLine_dispatches_writes_witness :
    ((sampleNode .raw (ascii "ab\ncd\nef\n")).readLine 4).2 = .returned .EOF ∧
    ((sampleNode .raw (ascii "ab\ncd\nef\n")).readLine 4).1.handled =
      [ascii "ab", ascii "cd", ascii "ef"] := by
  obtain ⟨h1, h2, -⟩ := readLine_dispatches_writes [ascii "ab\n", ascii "cd\nef\n"]
    (sampleNode .raw (ascii "ab\ncd\nef\n")) .raw
    { Addr := ascii "127.0.0.1:6379", Password := [], DB := 0, published := [] } 4
    (by decide) (by decide) (by decide) (by decide) (by decide) (by decide) (by decide)
    (by decide) (fun l _ => ⟨l, rfl⟩) (by decide)
  exact ⟨h1, h2.trans (by decide)⟩

theorem take_buff_long_line :
    ((List.replicate 1024 97 ++ [LINE_SEP]).drop 0).take BUFF_SIZE = List.replicate 1024 97 := by
  rw [List.drop_zero]
  exact List.take_left' (List.length_replicate _ _)

/-- C1, as stated, fails twice.  A single write of 1024 bytes 'a' and the
separator: the first chunk holds no separator, so with any fuel the line is
never passed to the line handler.  The writes "x\n" and "y\n" with the nginx
handler bound: the handler panics on "x", so "y" is never passed to it. -/
theorem readLine_not_all_lines_dispatched :
    (¬ ∃ fuel, ((sampleNode .raw (List.replicate 1024 97 ++ [LINE_SEP])).readLine fuel).1.handled =
        [List.replicate 1024 97]) ∧
    (¬ ∃ fuel, ((sampleNode .nginx (ascii "x\ny\n")).readLine fuel).1.handled =
        [ascii "x", ascii "y"]) := by
  constructor
  · rintro ⟨fuel, h⟩
    cases fuel with
    | zero =>
      have h0 : ([] : List GoString) = [List.replicate 1024 97] := h
      exact List.cons_ne_nil _ _ h0.symm
    | succ n =>
      have hstuck := readLine_no_separator (sampleNode .raw (List.replicate 1024 97 ++ [LINE_SEP]))
        rfl rfl
        (by
          show ((List.replicate 1024 97 ++ [LINE_SEP]).drop 0).take BUFF_SIZE ≠ []
          rw [take_buff_long_line]
          exact fun h0 => by
            have hlen := congrArg List.length h0
            rw [List.length_replicate, List.length_nil] at hlen
            exact absurd hlen (by decide))
        (by
          show LINE_SEP ∉ ((List.replicate 1024 97 ++ [LINE_SEP]).drop 0).take BUFF_SIZE
          rw [take_buff_long_line]
          intro hmem
          exact absurd (List.eq_of_mem_replicate hmem) (by decide))
        n
      rw [hstuck] at h
      have h0 : ([] : List GoString) = [List.replicate 1024 97] := h
      exact List.cons_ne_nil _ _ h0.symm
  · rintro ⟨fuel, h⟩
    cases fuel with
    | zero => exact absurd h (by decide)
    | succ n =>
      have e : (sampleNode .nginx (ascii "x\ny\n")).readLine (n + 1) =
          (sampleNode .nginx (ascii "x\ny\n")).readLine 1 := by
        rw [watcherNode.readLine, watcherNode.readLine]
        rfl
      rw [e] at h
      exact absurd h (by decide)

/-- C3 at the file "abc": its only chunk is not empty and holds no separator.
With any fuel `readLine` is still running and the node is as it was: nothing
is dispatched and the offset is unchanged, but `readLine` never returns to its
caller. -/
theorem readLine_unterminated_line_never_returns :
    ¬ ∃ fuel, (sampleNode .raw (ascii "abc")).readLine fuel ≠
      (sampleNode .raw (ascii "abc"), .running) := by
  rintro ⟨fuel, h⟩
  apply h
  cases fuel with
  | zero => rfl
  | succ n =>
    rw [readLine_no_separator (sampleNode .raw (ascii "abc")) rfl rfl (by decide) (by decide) n]
    rfl

/-! ## The watch registry -/

/-- The sample node is the node `register` stores for "/var/log/app.log" on a
fresh machine whose file system holds that file. -/
theorem register_stores_sampleNode (h : LineHandler) (data : List Byte) :
    (freshMachine { files := [(ascii "/var/log/app.log", data)], dirs := [ascii "/var/log"] }).register
        1 (sampleConfig h.configName "redis") =
      .done
        { fs := { files := [(ascii "/var/log/app.log", data)], dirs := [ascii "/var/log"] },
          w := { watcherList := [(ascii "/var/log/app.log", sampleNode h data)],
                 notifyWatcher := [ascii "/var/log/app.log"], config := [] },
          orphans := [] } := by
  cases h <;> rfl

/-- C4 at the failing input: "/var/log" exists and "/var/log/app.log" does
not.  `register` returns with the directory subscribed and the registry still
empty; after the file has been created, `eventsHandler` on the Create event
for the path finds no entry and returns without changing anything: no Tail
State appears and nothing is read. -/
theorem create_event_after_missing_register_ignored :
    ∃ m1, (freshMachine emptyLogDir).register 2 (sampleConfig "raw" "redis") = .done m1 ∧
      m1.w.notifyWatcher = [ascii "/var/log"] ∧
      m1.w.watcherList = [] ∧
      ∀ fuel, Machine.eventsHandler fuel { m1 with fs := oneLogFile }
          { Name := ascii "/var/log/app.log", Op := fsnotifyCreate } =
        .done { m1 with fs := oneLogFile } := by
  refine ⟨_, rfl, by decide, by decide, ?_⟩
  intro fuel
  rfl

/-- C5 at the failing input: "/var/log/app.log" exists.  After `register` the
path has one live descriptor; a second `register` of the same configuration,
or `eventsHandler` on a Create event for the path, puts a new descriptor in
the entry and leaves the previous one open: two live descriptors. -/
theorem register_replace_leaves_descriptor_open :
    ∃ m1 m2 m3,
      (freshMachine oneLogFile).register 1 (sampleConfig "raw" "redis") = .done m1 ∧
      (m1.liveDescriptors (ascii "/var/log/app.log")).length = 1 ∧
      m1.register 1 (sampleConfig "raw" "redis") = .done m2 ∧
      (m2.liveDescriptors (ascii "/var/log/app.log")).length = 2 ∧
      m1.eventsHandler 2 { Name := ascii "/var/log/app.log", Op := fsnotifyCreate } = .done m3 ∧
      (m3.liveDescriptors (ascii "/var/log/app.log")).length = 2 := by
  refine ⟨_, _, _, rfl, by decide, rfl, by decide, rfl, by decide⟩

/-! ## Registration: what it leaves alone -/

theorem length_getParentDirLoop_le (path : GoString) :
    ∀ i, (getParentDirLoop path i).length ≤ i := by
  intro i
  induction i with
  | zero => simp [getParentDirLoop]
  | succ i ih =>
    rw [getParentDirLoop]
    split
    · exact (List.length_take_le _ _)
    · omega

/-- The parent of a name is not longer than the name less one byte. -/
theorem length_getParentDir_le (path : GoString) :
    (getParentDir path).length ≤ path.length - 1 :=
  length_getParentDirLoop_le path _

theorem present_filepathClean_nil (fs : FileSystem) : fs.present (filepathClean []) = true := by
  simp [filepathClean, FileSystem.present, FileSystem.isDir]

theorem filepathClean_of_present (fs : FileSystem) (name : GoString)
    (h : fs.present name = true) : fs.present (filepathClean name) = true := by
  unfold filepathClean
  split
  · simp [FileSystem.present, FileSystem.isDir]
  · exact h

theorem notifyAdd_present (m : Machine) (name : GoString)
    (h : m.fs.present (filepathClean name) = true) :
    ∃ m1, m.notifyAdd name = .ok m1 ∧ m1.fs = m.fs ∧ m1.orphans = m.orphans ∧
      m1.w.watcherList = m.w.watcherList := by
  unfold Machine.notifyAdd
  rw [if_pos h]
  exact ⟨_, rfl, rfl, rfl, rfl⟩

theorem notifyAdd_absent (m : Machine) (name : GoString)
    (h : m.fs.present (filepathClean name) = false) :
    m.notifyAdd name = .error .ENOENT := by
  unfold Machine.notifyAdd
  rw [if_neg (by simp [h])]

theorem open_present (fs : FileSystem) (name : GoString) (h : fs.present name = true) :
    ∃ fd, fs.Open name = .ok fd ∧ fd.pos = 0 := by
  unfold FileSystem.Open
  cases hl : fs.files.lookup name with
  | some data => exact ⟨_, rfl, rfl⟩
  | none =>
    have hd : fs.isDir name = true := by
      simpa [FileSystem.present, hl] using h
    simp only [hd, if_true]
    exact ⟨_, rfl, rfl⟩

theorem open_absent (fs : FileSystem) (name : GoString) (h : fs.present name = false) :
    fs.Open name = .error .ENOENT := by
  unfold FileSystem.Open
  simp only [FileSystem.present, Bool.or_eq_false_iff] at h
  cases hl : fs.files.lookup name with
  | some data => simp [hl] at h
  | none => simp [h.2]

theorem mem_mapStore (l : List (GoString × watcherNode)) (k : GoString) (v : watcherNode) :
    ∀ e ∈ mapStore l k v, e = (k, v) ∨ e ∈ l := by
  induction l with
  | nil =>
    intro e he
    simp only [mapStore, List.mem_singleton] at he
    exact Or.inl he
  | cons x xs ih =>
    obtain ⟨k0, v0⟩ := x
    intro e he
    unfold mapStore at he
    split at he
    · rcases List.mem_cons.1 he with h | h
      · exact Or.inl h
      · exact Or.inr (List.mem_cons_of_mem _ h)
    · rcases List.mem_cons.1 he with h | h
      · exact Or.inr (h ▸ List.mem_cons_self _ _)
      · rcases ih e h with h1 | h1
        · exact Or.inl h1
        · exact Or.inr (List.mem_cons_of_mem _ h1)

theorem lookup_mapStore_ne (l : List (GoString × watcherNode)) (k k1 : GoString) (v : watcherNode)
    (hne : k1 ≠ k) : (mapStore l k v).lookup k1 = l.lookup k1 := by
  induction l with
  | nil =>
    simp only [mapStore, List.lookup]
    have : (k1 == k) = false := by simpa using hne
    rw [this]
  | cons x xs ih =>
    obtain ⟨k0, v0⟩ := x
    unfold mapStore
    split
    · rename_i h0
      have h1 : (k1 == k) = false := by simpa using hne
      have h2 : (k1 == k0) = false := by rw [h0]; exact h1
      simp only [List.lookup, h1, h2]
    · simp only [List.lookup]
      rw [ih]

theorem mem_of_lookup (l : List (GoString × watcherNode)) (k : GoString) (v : watcherNode)
    (h : l.lookup k = some v) : (k, v) ∈ l := by
  induction l with
  | nil => simp [List.lookup] at h
  | cons x xs ih =>
    obtain ⟨k0, v0⟩ := x
    simp only [List.lookup] at h
    split at h
    · rename_i heq
      have hk : k = k0 := by simpa using heq
      simp only [Option.some.injEq] at h
      rw [hk, h]
      exact List.mem_cons_self _ _
    · exact List.mem_cons_of_mem _ (ih h)

theorem nothingRead_iff (m : Machine) :
    m.nothingRead = true ↔ ∀ e ∈ m.w.watcherList, e.2.untouched = true := by
  simp [Machine.nothingRead, List.all_eq_true]

theorem nothingRead_setNode (m : Machine) (k : GoString) (v : watcherNode)
    (hm : m.nothingRead = true) (hv : v.untouched = true) :
    (m.setNode k v).nothingRead = true := by
  rw [nothingRead_iff] at hm ⊢
  intro e he
  rcases mem_mapStore _ _ _ e he with h | h
  · rw [h]; exact hv
  · exact hm e h

theorem closeStale_frame (m : Machine) (name : GoString) :
    (m.closeStale name).fs = m.fs ∧
    (m.nothingRead = true → (m.closeStale name).nothingRead = true) ∧
    (∀ k, m.w.watcherList.lookup k = none → (m.closeStale name).w.watcherList.lookup k = none) := by
  unfold Machine.closeStale
  cases hl : m.w.watcherList.lookup name with
  | none => exact ⟨rfl, fun h => h, fun _ h => h⟩
  | some v =>
    refine ⟨rfl, ?_, ?_⟩
    · intro hm
      apply nothingRead_setNode m name _ hm
      have hv := (nothingRead_iff m).1 hm _ (mem_of_lookup _ _ _ hl)
      simpa [watcherNode.untouched, OsFile.Close] using hv
    · intro k hk
      have hne : k ≠ name := by
        intro h
        rw [h, hl] at hk
        cases hk
      show (mapStore m.w.watcherList name _).lookup k = none
      rw [lookup_mapStore_ne _ _ _ _ hne]
      exact hk

/-- The function `addWatcher` returns whenever the fuel exceeds the length of
the name: every parent is shorter than its name, and the empty name stands for
the working directory, which exists.  It changes no file, reads nothing and
adds no entry to the registry. -/
theorem addWatcher_returns (fuel : Nat) :
    ∀ (m : Machine) (name : GoString), name.length < fuel →
      ∃ m1, m.addWatcher fuel name = .done m1 ∧ m1.fs = m.fs ∧
        (m.nothingRead = true → m1.nothingRead = true) ∧
        (∀ k, m.w.watcherList.lookup k = none → m1.w.watcherList.lookup k = none) ∧
        (m.fs.present (filepathClean name) = true → m1.w.watcherList = m.w.watcherList ∧
          m1.orphans = m.orphans) := by
  induction fuel with
  | zero => intro m name h; omega
  | succ n ih =>
    intro m name hlen
    by_cases hp : m.fs.present (filepathClean name) = true
    · obtain ⟨m1, hadd, hfs, horph, hwl⟩ := notifyAdd_present m name hp
      refine ⟨m1, by rw [Machine.addWatcher, hadd], hfs, ?_, ?_, fun _ => ⟨hwl, horph⟩⟩
      · intro hm
        rw [nothingRead_iff] at hm ⊢
        rw [hwl]
        exact hm
      · intro k hk
        rw [hwl]
        exact hk
    · have hp2 : m.fs.present (filepathClean name) = false := by simpa using hp
      have hne : name ≠ [] := by
        intro h0
        rw [h0, present_filepathClean_nil] at hp2
        cases hp2
      have hpos : 0 < name.length := List.length_pos.2 hne
      have hparent : (getParentDir name).length < n := by
        have := length_getParentDir_le name
        omega
      obtain ⟨m1, hrec, hfs, hnr, hlk, -⟩ := ih m (getParentDir name) hparent
      obtain ⟨cfs, cnr, clk⟩ := closeStale_frame m1 name
      refine ⟨m1.closeStale name, ?_, cfs.trans hfs, fun hm => cnr (hnr hm),
        fun k hk => clk k (hlk k hk), fun h => absurd h hp⟩
      rw [Machine.addWatcher, notifyAdd_absent m name hp2]
      simp only [IOError.IsNotExist, if_true, hrec, Run.andThen]

theorem untouched_fresh (v : watcherNode) (fd : OsFile) (hv : v.untouched = true)
    (hfd : fd.pos = 0) : ({ v with fd := fd } : watcherNode).untouched = true := by
  simp only [watcherNode.untouched, Bool.and_eq_true] at hv ⊢
  exact ⟨⟨hv.1.1, by simp [hfd]⟩, hv.2⟩

/-- Whatever the configuration, with fuel above the length of its file name
`register` returns or exits with status 4; it changes no file, reads and
dispatches nothing, and adds no entry but the one of its own file. -/
theorem register_frame (fuel : Nat) (m : Machine) (cfg : nodeConfiguration)
    (hfuel : cfg.File.length < fuel) :
    ∃ m1, (m.register fuel cfg = .done m1 ∨ m.register fuel cfg = .exit 4 m1) ∧
      m1.fs = m.fs ∧
      (m.nothingRead = true → m1.nothingRead = true) ∧
      (∀ k, k ≠ cfg.File → m.w.watcherList.lookup k = none →
        m1.w.watcherList.lookup k = none) := by
  obtain ⟨ma, hadd, hfs, hnr, hlk, -⟩ := addWatcher_returns fuel m cfg.File hfuel
  unfold Machine.register
  simp only [hadd, Run.andThen]
  by_cases hp : ma.fs.present cfg.File = true
  · obtain ⟨fd, hopen, hpos⟩ := open_present ma.fs cfg.File hp
    simp only [hopen]
    cases hl : ma.w.watcherList.lookup cfg.File with
    | some v =>
      refine ⟨_, Or.inl rfl, hfs, ?_, ?_⟩
      · intro hm
        have hma := hnr hm
        have hv := (nothingRead_iff ma).1 hma _ (mem_of_lookup _ _ _ hl)
        exact nothingRead_setNode ma cfg.File _ hma (untouched_fresh v fd hv hpos)
      · intro k hk hnone
        show (mapStore ma.w.watcherList cfg.File _).lookup k = none
        rw [lookup_mapStore_ne _ _ _ _ hk]
        exact hlk k hnone
    | none =>
      simp only []
      by_cases hs : cfg.Sendhandler = ascii "redis"
      · by_cases hr : cfg.Linehandler = ascii "raw"
        · simp only [watcherNode.initSenderHandler, hs, if_true, watcherNode.initRedis,
            watcherNode.initLineHandler, hr, watcherNode.initRaw]
          refine ⟨_, Or.inl rfl, hfs, ?_, ?_⟩
          · intro hm
            exact nothingRead_setNode ma cfg.File _ (hnr hm) (by simp [watcherNode.untouched, hpos])
          · intro k hk hnone
            show (mapStore ma.w.watcherList cfg.File _).lookup k = none
            rw [lookup_mapStore_ne _ _ _ _ hk]
            exact hlk k hnone
        · by_cases hn : cfg.Linehandler = ascii "nginx"
          · simp only [watcherNode.initSenderHandler, hs, if_true, watcherNode.initRedis,
              watcherNode.initLineHandler, if_neg hr, hn, watcherNode.initNginx]
            refine ⟨_, Or.inl rfl, hfs, ?_, ?_⟩
            · intro hm
              exact nothingRead_setNode ma cfg.File _ (hnr hm)
                (by simp [watcherNode.untouched, hpos])
            · intro k hk hnone
              show (mapStore ma.w.watcherList cfg.File _).lookup k = none
              rw [lookup_mapStore_ne _ _ _ _ hk]
              exact hlk k hnone
          · simp only [watcherNode.initSenderHandler, hs, if_true, watcherNode.initRedis,
              watcherNode.initLineHandler, if_neg hr, if_neg hn]
            exact ⟨_, Or.inr rfl, hfs, fun hm => hnr hm, fun k _ hnone => hlk k hnone⟩
      · simp only [watcherNode.initSenderHandler, if_neg hs]
        exact ⟨_, Or.inr rfl, hfs, fun hm => hnr hm, fun k _ hnone => hlk k hnone⟩
  · have hp2 : ma.fs.present cfg.File = false := by simpa using hp
    simp only [open_absent ma.fs cfg.File hp2, IOError.IsNotExist, if_true]
    have hparent : (getParentDir cfg.File).length < fuel := by
      have := length_getParentDir_le cfg.File
      omega
    obtain ⟨mb, hadd2, hfs2, hnr2, hlk2, -⟩ := addWatcher_returns fuel ma (getParentDir cfg.File) hparent
    obtain ⟨cfs, cnr, clk⟩ := closeStale_frame mb cfg.File
    simp only [hadd2]
    exact ⟨_, Or.inl rfl, cfs.trans (hfs2.trans hfs), fun hm => cnr (hnr2 (hnr hm)),
      fun k _ hnone => clk k (hlk2 k (hlk k hnone))⟩

/-- A configuration with an unknown handler whose file exists and whose path
has no entry yet: `register` exits with status 4 and leaves the registry as it
was. -/
theorem register_exits_of_unknown_handler (fuel : Nat) (m : Machine) (cfg : nodeConfiguration)
    (hfuel : 0 < fuel)
    (hbad : (cfg.Linehandler ≠ ascii "raw" ∧ cfg.Linehandler ≠ ascii "nginx") ∨
      cfg.Sendhandler ≠ ascii "redis")
    (hfile : m.fs.present cfg.File = true)
    (hnew : m.w.watcherList.lookup cfg.File = none) :
    ∃ m1, m.register fuel cfg = .exit 4 m1 ∧ m1.w.watcherList = m.w.watcherList := by
  obtain ⟨n, rfl⟩ : ∃ n, fuel = n + 1 := ⟨fuel - 1, by omega⟩
  obtain ⟨ma, hadd, hfs, -, hwl⟩ :=
    notifyAdd_present m cfg.File (filepathClean_of_present m.fs cfg.File hfile)
  obtain ⟨fd, hopen, -⟩ := open_present ma.fs cfg.File (hfs ▸ hfile)
  have hw : m.addWatcher (n + 1) cfg.File = .done ma := by
    rw [Machine.addWatcher, hadd]
  have hlook : ma.w.watcherList.lookup cfg.File = none := hwl ▸ hnew
  unfold Machine.register
  simp only [hw, Run.andThen, hopen, hlook]
  by_cases hs : cfg.Sendhandler = ascii "redis"
  · have hl : cfg.Linehandler ≠ ascii "raw" ∧ cfg.Linehandler ≠ ascii "nginx" := by
      rcases hbad with h | h
      · exact h
      · exact absurd hs h
    simp only [watcherNode.initSenderHandler, hs, if_true, watcherNode.initRedis,
      watcherNode.initLineHandler, if_neg hl.1, if_neg hl.2]
    exact ⟨_, rfl, hwl⟩
  · simp only [watcherNode.initSenderHandler, if_neg hs]
    exact ⟨_, rfl, hwl⟩

/-- Whatever the handler names: when the file does not exist, or its path has
an entry already, `register` returns. -/
theorem register_returns_unchecked (fuel : Nat) (m : Machine) (cfg : nodeConfiguration)
    (hfuel : cfg.File.length < fuel)
    (hcase : m.fs.present cfg.File = false ∨ (m.w.watcherList.lookup cfg.File).isSome = true) :
    ∃ m1, m.register fuel cfg = .done m1 := by
  obtain ⟨ma, hadd, hfs, -, hlk, hsame⟩ := addWatcher_returns fuel m cfg.File hfuel
  unfold Machine.register
  simp only [hadd, Run.andThen]
  by_cases hp : m.fs.present cfg.File = true
  · have hsome : (m.w.watcherList.lookup cfg.File).isSome = true := by
      rcases hcase with h | h
      · rw [hp] at h; cases h
      · exact h
    obtain ⟨fd, hopen, -⟩ := open_present ma.fs cfg.File (hfs ▸ hp)
    have hwl := (hsame (filepathClean_of_present m.fs cfg.File hp)).1
    obtain ⟨v, hv⟩ := Option.isSome_iff_exists.1 hsome
    simp only [hopen, hwl, hv]
    exact ⟨_, rfl⟩
  · have hp2 : ma.fs.present cfg.File = false := by rw [hfs]; simpa using hp
    simp only [open_absent ma.fs cfg.File hp2, IOError.IsNotExist, if_true]
    have hparent : (getParentDir cfg.File).length < fuel := by
      have := length_getParentDir_le cfg.File
      omega
    obtain ⟨mb, hadd2, -⟩ := addWatcher_returns fuel ma (getParentDir cfg.File) hparent
    simp only [hadd2]
    exact ⟨_, rfl⟩

/-- The loop of `initWatcher` reaches a configuration with an unknown handler,
an existing file and a path that no earlier configuration names and the
registry does not hold: the process exits with status 4 there or earlier, and
no line of any file has been read or dispatched. -/
theorem registerAll_exits (fuel : Nat) (cfg : nodeConfiguration) (post : List nodeConfiguration)
    (hfuel : 0 < fuel)
    (hbad : (cfg.Linehandler ≠ ascii "raw" ∧ cfg.Linehandler ≠ ascii "nginx") ∨
      cfg.Sendhandler ≠ ascii "redis") :
    ∀ (pre : List nodeConfiguration) (m : Machine),
      m.nothingRead = true → m.fs.present cfg.File = true →
      m.w.watcherList.lookup cfg.File = none →
      (∀ c ∈ pre, c.File ≠ cfg.File) → (∀ c ∈ pre, c.File.length < fuel) →
      ∃ m1, Machine.registerAll fuel m (pre ++ cfg :: post) = .exit 4 m1 ∧
        m1.nothingRead = true := by
  intro pre
  induction pre with
  | nil =>
    intro m hnr hp hnew _ _
    obtain ⟨m1, hexit, hwl⟩ := register_exits_of_unknown_handler fuel m cfg hfuel hbad hp hnew
    refine ⟨m1, ?_, ?_⟩
    · simp only [List.nil_append, Machine.registerAll, hexit, Run.andThen]
    · rw [nothingRead_iff] at hnr ⊢
      rw [hwl]
      exact hnr
  | cons c pre ih =>
    intro m hnr hp hnew hne hlen
    obtain ⟨m1, hres, hfs, hnr1, hlk⟩ :=
      register_frame fuel m c (hlen c (List.mem_cons_self _ _))
    rcases hres with hdone | hexit
    · obtain ⟨m2, h2, hnr2⟩ := ih m1 (hnr1 hnr) (hfs ▸ hp)
        (hlk cfg.File (fun h => hne c (List.mem_cons_self _ _) h.symm) hnew)
        (fun x hx => hne x (List.mem_cons_of_mem _ hx))
        (fun x hx => hlen x (List.mem_cons_of_mem _ hx))
      refine ⟨m2, ?_, hnr2⟩
      simp only [List.cons_append, Machine.registerAll, hdone, Run.andThen]
      exact h2
    · refine ⟨m1, ?_, hnr1 hnr⟩
      simp only [List.cons_append, Machine.registerAll, hexit, Run.andThen]

/-! ## Unknown handlers -/

/-- C6, as the code behaves, in three parts.  A configuration whose
`Linehandler` is neither "raw" nor "nginx", or whose `Sendhandler` is not
"redis", whose file exists and whose path has no entry in the registry yet:
`register` ends the process with exit status 4 and leaves the registry as it
was.  At startup, with the registry empty: when the Monitor list holds such a
configuration, its file exists and no earlier configuration names that file,
`initWatcher` ends the process with exit status 4 and no line of any file has
been read or dispatched (every node stored so far has handled nothing,
published nothing and has its descriptor at position 0).  Whatever the handler
names: when the file does not exist, or its path has an entry already,
`register` returns. -/
theorem register_unknown_handler_exits :
    (∀ (fuel : Nat) (m : Machine) (cfg : nodeConfiguration),
      0 < fuel →
      ((cfg.Linehandler ≠ ascii "raw" ∧ cfg.Linehandler ≠ ascii "nginx") ∨
        cfg.Sendhandler ≠ ascii "redis") →
      m.fs.present cfg.File = true →
      m.w.watcherList.lookup cfg.File = none →
      ∃ m1, m.register fuel cfg = .exit 4 m1 ∧ m1.w.watcherList = m.w.watcherList) ∧
    (∀ (fuel : Nat) (m : Machine) (pre : List nodeConfiguration) (cfg : nodeConfiguration)
        (post : List nodeConfiguration),
      m.w.watcherList = [] →
      m.w.config = pre ++ cfg :: post →
      ((cfg.Linehandler ≠ ascii "raw" ∧ cfg.Linehandler ≠ ascii "nginx") ∨
        cfg.Sendhandler ≠ ascii "redis") →
      m.fs.present cfg.File = true →
      (∀ c ∈ pre, c.File ≠ cfg.File) →
      (∀ c ∈ pre, c.File.length < fuel) → 0 < fuel →
      ∃ m1, m.initWatcher fuel = .exit 4 m1 ∧ m1.nothingRead = true) ∧
    (∀ (fuel : Nat) (m : Machine) (cfg : nodeConfiguration),
      cfg.File.length < fuel →
      (m.fs.present cfg.File = false ∨ (m.w.watcherList.lookup cfg.File).isSome = true) →
      ∃ m1, m.register fuel cfg = .done m1) := by
  refine ⟨?_, ?_, ?_⟩
  · intro fuel m cfg hfuel hbad hfile hnew
    exact register_exits_of_unknown_handler fuel m cfg hfuel hbad hfile hnew
  · intro fuel m pre cfg post hempty hconfig hbad hfile hne hlen hfuel
    have hnr : ({ m with w := { m.w with notifyWatcher := [] } } : Machine).nothingRead = true := by
      rw [nothingRead_iff]
      intro e he
      have he2 : e ∈ m.w.watcherList := he
      rw [hempty] at he2
      cases he2
    have hnew : ({ m with w := { m.w with notifyWatcher := [] } } : Machine).w.watcherList.lookup
        cfg.File = none := by
      show m.w.watcherList.lookup cfg.File = none
      rw [hempty]
      rfl
    have hres := registerAll_exits fuel cfg post hfuel hbad pre
      { m with w := { m.w with notifyWatcher := [] } } hnr hfile hnew hne hlen
    unfold Machine.initWatcher
    rw [hconfig]
    exact hres
  · intro fuel m cfg hfuel hcase
    exact register_returns_unchecked fuel m cfg hfuel hcase

/-- C6 at concrete inputs.  The file "/var/log/app.log" exists and its line
handler is "bogus": `register` exits with status 4 on the fresh machine;
`initWatcher` exits with status 4, nothing read, when the Monitor list names
"/var/log/other.log" with known handlers first and that configuration second.  On a
machine without the file, `register` of the same configuration returns. -/
theorem register_unknown_handler_exits_witness :
    (∃ m1, (freshMachine oneLogFile).register 1 (sampleConfig "bogus" "redis") = .exit 4 m1 ∧
      m1.w.watcherList = (freshMachine oneLogFile).w.watcherList) ∧
    (∃ m1, startupMachine.initWatcher 19 = .exit 4 m1 ∧ m1.nothingRead = true) ∧
    (∃ m1, (freshMachine emptyLogDir).register 17 (sampleConfig "bogus" "redis") = .done m1) :=
  ⟨register_unknown_handler_exits.1 1 (freshMachine oneLogFile) (sampleConfig "bogus" "redis")
      (by decide) (Or.inl (by decide)) (by decide) (by decide),
   register_unknown_handler_exits.2.1 19 startupMachine
      [{ sampleConfig "raw" "redis" with File := ascii "/var/log/other.log" }]
      (sampleConfig "bogus" "redis") [] rfl rfl (Or.inl (by decide)) (by decide) (by decide)
      (by decide) (by decide),
   register_unknown_handler_exits.2.2 17 (freshMachine emptyLogDir) (sampleConfig "bogus" "redis")
      (by decide) (Or.inl (by decide))⟩

/-- C6, as stated, fails twice.  The file of the configuration does not exist:
`register` returns, with any fuel it does not exit.  The path is registered
already and a second configuration for it names unknown handlers: `register`
returns as well. -/
theorem register_unknown_handler_returns :
    (¬ ∃ fuel code m', (freshMachine emptyLogDir).register fuel (sampleConfig "bogus" "redis") =
        .exit code m') ∧
    (∃ m1 m2, (freshMachine emptyLogDir).register 2 (sampleConfig "bogus" "redis") = .done m1 ∧
      (freshMachine oneLogFile).register 1 (sampleConfig "raw" "redis") = .done m2 ∧
      ¬ ∃ fuel code m', m2.register fuel (sampleConfig "bogus" "kafka") = .exit code m') := by
  constructor
  · rintro ⟨fuel, code, m', h⟩
    match fuel, h with
    | 0, h => cases h
    | 1, h => cases h
    | n + 2, h => cases h
  · refine ⟨_, _, rfl, rfl, ?_⟩
    rintro ⟨fuel, code, m', h⟩
    match fuel, h with
    | 0, h => cases h
    | n + 1, h => cases h
end Logsender
